import Mathlib

/-!
# Flyer: the scene / camera layer of `src/flyer/worldwidget.cpp`

A shallow embedding of `Flyer::WorldScene` (the internal graphics scene of
`WorldWidget`) together with the facts its specification states about it.

Conventions of the embedding

* C++ `double` / `qreal` / `float32` values are embedded as exact rationals `ℚ`.
  A division whose divisor is a run-time value goes through `fdiv`, which
  yields `none` when the divisor is zero (the C++ result is then `inf` or
  `NaN`, which has no rational counterpart).  Divisions by non-zero literals
  are plain rational divisions.
* Where the rounding of `double` operations decides a property (the size of
  one anchor step, the image of the plane under the stored transform),
  `adjustTransform` is embedded a second time as `adjustTransformDouble`, with
  every operation rounded to the nearest binary64 value (`roundDouble`).
* C++ `int` values are embedded as `Int`; the enum `WorldScene::Zoom` is
  embedded by its underlying integer value, because `keyPressEvent` does
  integer arithmetic on it.
* The `World`, the `Plane`, the painter and the `QGraphicsScene` base class are
  outside of the embedded file.  What the scene reads from them is passed in
  as a `WorldView`; what the scene calls on them is appended, in call order,
  to the field `calls` of the scene state.
-/

namespace Flyer

/-! ## Values -/

/-- FPS constant of the file: `static const double FPS = 10`. -/
def FPS : ℚ := 10

/-- Division of two doubles by a run-time divisor: `none` stands for the
non-finite result of a division by zero. -/
def fdiv (a b : ℚ) : Option ℚ :=
  if b = 0 then none else some (a / b)

/-- Conversion of a `double` to `int` as C++ does it: truncation toward zero. -/
def cInt (q : ℚ) : Int :=
  if 0 ≤ q then ⌊q⌋ else ⌈q⌉

/-- Point with real coordinates, `QPointF`. -/
structure QPointF where
  x : ℚ
  y : ℚ
deriving DecidableEq, Repr

/-- Affine part of Qt's `QTransform`: a point `(x, y)` is mapped to
`(m11*x + m21*y + dx, m12*x + m22*y + dy)`. -/
structure QTransform where
  m11 : ℚ
  m12 : ℚ
  m21 : ℚ
  m22 : ℚ
  dx : ℚ
  dy : ℚ
deriving DecidableEq, Repr

namespace QTransform

/-- Default constructed `QTransform`: the identity. -/
def identity : QTransform := ⟨1, 0, 0, 1, 0, 0⟩

/-- Qt's `QTransform::scale(sx, sy)`: scales the coordinate system, that is,
the scaling is applied to a point before the transformation held so far. -/
def scale (t : QTransform) (sx sy : ℚ) : QTransform :=
  ⟨t.m11 * sx, t.m12 * sx, t.m21 * sy, t.m22 * sy, t.dx, t.dy⟩

/-- Qt's `QTransform::translate(dx, dy)`: moves the coordinate system, that is,
the translation is applied to a point before the transformation held so far. -/
def translate (t : QTransform) (dx dy : ℚ) : QTransform :=
  ⟨t.m11, t.m12, t.m21, t.m22,
    t.dx + dx * t.m11 + dy * t.m21, t.dy + dy * t.m22 + dx * t.m12⟩

/-- Qt's `QTransform::map(QPointF)` for an affine transformation. -/
def map (t : QTransform) (p : QPointF) : QPointF :=
  ⟨t.m11 * p.x + t.m21 * p.y + t.dx, t.m12 * p.x + t.m22 * p.y + t.dy⟩

end QTransform

/-- One entry of the plane's message list: `time()` and `text()`. -/
structure Message where
  time : ℚ
  text : String
deriving DecidableEq, Repr

/-- Values `WorldScene` reads from the world and from the player's plane at the
moment of a call. -/
structure WorldView where
  /-- Result of `plane()->position()`. -/
  position : QPointF
  /-- Result of `plane()->linearVelocity()`. -/
  linearVelocity : QPointF
  /-- Result of `_pWorld->timestep()`. -/
  timestep : ℚ
  /-- Result of `world()->time()`. -/
  time : ℚ
  /-- Result of `plane()->messages()`, oldest first. -/
  messages : List Message
  /-- Result of `plane()->autopilot()`. -/
  autopilot : Bool
  /-- Result of `plane()->flaps()`. -/
  flaps : ℚ
  /-- Result of `plane()->throttle()`. -/
  throttle : ℚ
deriving DecidableEq, Repr

/-! ## Zoom levels -/

/-- Enumerator `ZOOM1` (level 1 - closeup). -/
def ZOOM1 : Int := 0
/-- Enumerator `ZOOM2` (level 2 - as usual). -/
def ZOOM2 : Int := 1
/-- Enumerator `ZOOM3` (level 3 - far view). -/
def ZOOM3 : Int := 2

/-- A value of the enum `Zoom` is one of its three enumerators. -/
def isZoomLevel (z : Int) : Prop := z = ZOOM1 ∨ z = ZOOM2 ∨ z = ZOOM3

instance (z : Int) : Decidable (isZoomLevel z) := by
  unfold isZoomLevel; infer_instance

/-! ## Calls made by the scene -/

/-- Names of the six input handlers. -/
inductive Handler where
  | mouseMove | mousePress | mouseRelease | wheel | keyPress | keyRelease
deriving DecidableEq, Repr

/-- Calls `WorldScene` makes on its collaborators. -/
inductive Call where
  /-- Call of the handler of the base class, `QGraphicsScene::...Event( pEvent )`. -/
  | base (h : Handler)
  /-- Call `_pWorld->simulate( dt )`. -/
  | simulate (dt : ℚ)
  /-- Call `update()`. -/
  | update
  /-- Call `setFocus()`. -/
  | setFocus
  /-- Call `pEvent->ignore()`. -/
  | ignore
  /-- Call `plane()->setElevator( e )`. -/
  | setElevator (e : Option ℚ)
  /-- Call `plane()->setFiring( flag )`. -/
  | setFiring (flag : Bool)
  /-- Call `plane()->releaseWeapon()`. -/
  | releaseWeapon
  /-- Call `plane()->setThrottle( t )`. -/
  | setThrottle (t : ℚ)
  /-- Call `plane()->flipPlane()`. -/
  | flipPlane
  /-- Call `plane()->setFlaps( f )`. -/
  | setFlaps (f : ℚ)
  /-- Call `plane()->applyWheelBrake( flag )`. -/
  | applyWheelBrake (flag : Bool)
  /-- Call `plane()->setAutopilot( flag )`. -/
  | setAutopilot (flag : Bool)
  /-- Call `pixmap.save( "step<frames>.png" )`. -/
  | savePixmap (frames : Int)
  /-- Call `_pWorld->render( painter, ... )`. -/
  | worldRender
  /-- Call `_pWorld->renderMap( painter, ... )`. -/
  | worldRenderMap
  /-- Texts of the head-up display: the frame rate shown and whether the
  banner for the paused simulation is drawn. -/
  | drawHud (fps : Option ℚ) (paused : Bool)
  /-- Final `painter.drawText( messagesRect, ..., messages.join("\n") )`. -/
  | drawMessages (messages : List String)
deriving DecidableEq, Repr

/-! ## Scene state -/

/-- State of a `WorldScene`. -/
structure WorldScene where
  /-- Whether `_timer.isActive()`. -/
  timerActive : Bool
  /-- Scene rectangle width, `width()`. -/
  width : ℚ
  /-- Scene rectangle height, `height()`. -/
  height : ℚ
  /-- Field `_transform`; `none` when a division by zero made it non-finite. -/
  transform : Option QTransform
  /-- Field `_planePos`: current displayed plane pos in pixels. -/
  planePos : QPointF
  /-- Field `_frames`: frame counter. -/
  frames : Int
  /-- Field `_zoom`: current zoom level. -/
  zoom : Int
  /-- Field `_lastRenderTime`. -/
  lastRenderTime : ℚ
  /-- Calls made so far on the collaborators, oldest first. -/
  calls : List Call
deriving DecidableEq, Repr

namespace WorldScene

/-- The `switch( _zoom )` of `adjustTransform` selecting `metersVisible`;
`ZOOM2` shares its branch with `default`. -/
def metersVisible (zoom : Int) : ℚ :=
  if zoom = ZOOM1 then 100
  else if zoom = ZOOM3 then 625
  else 250

/-- Local `zoom` of `adjustTransform`: `viewportSize / metersVisible` with
`viewportSize = qMax( w, h )`. -/
def zoomFactor (zoom : Int) (w h : Int) : Option ℚ :=
  let viewportSize : ℚ := ((max w h : Int) : ℚ)
  fdiv viewportSize (metersVisible zoom)

/-- Locals `posX`, `posY` of `adjustTransform`: desired plane position, in pixels. -/
def desiredPos (w h : Int) (velocity : QPointF) : QPointF :=
  ⟨(w : ℚ) * (1 / 2), (h : ℚ) * (if |velocity.x| > 30 then 35 / 100 else 1 / 2)⟩

/-- `WorldScene::adjustTransform`: adjusts zoom and position. -/
def adjustTransform (s : WorldScene) (v : WorldView) : WorldScene :=
  let pos := v.position
  let velocity := v.linearVelocity
  let w : Int := cInt s.width
  let h : Int := cInt s.height
  let zoom := zoomFactor s.zoom w h
  let posX := (desiredPos w h velocity).x
  let posY := (desiredPos w h velocity).y
  let maxSpeedX := 300 * v.timestep
  let maxSpeedY := 50 * v.timestep
  let ex := max (-maxSpeedX) (min maxSpeedX (s.planePos.x - posX))
  let ey := max (-maxSpeedY) (min maxSpeedY (s.planePos.y - posY))
  let planePos : QPointF := ⟨s.planePos.x - ex, s.planePos.y - ey⟩
  let t : Option QTransform :=
    zoom.bind fun z =>
      (fdiv planePos.x z).bind fun ax =>
        (fdiv planePos.y z).bind fun ay =>
          some ((QTransform.identity.scale z (-z)).translate (-pos.x + ax) (-pos.y - ay))
  { s with transform := t, planePos := planePos }


/-! ### Simulation control -/

/-- Appends one call to the record of calls. -/
def call (s : WorldScene) (c : Call) : WorldScene :=
  { s with calls := s.calls ++ [c] }

/-- `WorldScene::onTimer`: simulates the world.  The view `v` is what the world
shows once `simulate` has returned. -/
def onTimer (s : WorldScene) (v : WorldView) : WorldScene :=
  let s1 := s.call (Call.simulate (1 / FPS))
  let s2 := s1.adjustTransform v
  let s3 := s2.call Call.update
  { s3 with frames := s3.frames + 1 }

/-- `WorldScene::start`: start simulation (`_timer.start()`). -/
def start (s : WorldScene) : WorldScene :=
  { s with timerActive := true }

/-- `WorldScene::stop`: stop simulation. -/
def stop (s : WorldScene) : WorldScene :=
  let s1 := { s with timerActive := false }
  let s2 := s1.call Call.update
  { s2 with lastRenderTime := 0 }

/-- `WorldScene::isRunning`: true if simulation is running. -/
def isRunning (s : WorldScene) : Bool :=
  s.timerActive

/-- `WorldScene::step`: single simulation step. -/
def step (s : WorldScene) (v : WorldView) : WorldScene :=
  let s1 := s.call Call.update
  let s2 := s1.call (Call.savePixmap s1.frames)
  if ! s2.timerActive then s2.onTimer v else s2

/-- `WorldScene::resized`. -/
def resized (s : WorldScene) (v : WorldView) : WorldScene :=
  let s1 := { s with planePos := ⟨s.width / 2, s.height / 2⟩ }
  s1.adjustTransform v

/-- `WorldWidget::resizeEvent`: the scene rectangle becomes the rectangle of
the viewport (integer width `w` and height `h`), then `resized` runs. -/
def resizeEvent (s : WorldScene) (w h : Int) (v : WorldView) : WorldScene :=
  let s1 := { s with width := (w : ℚ), height := (h : ℚ) }
  s1.resized v

/-- Constructor of `WorldScene`.  `adjustTransform` runs before `_zoom` is
assigned, so it sees an indeterminate zoom value `z0`; the scene rectangle is
still empty and the timer has not been started. -/
def construct (z0 : Int) (v : WorldView) : WorldScene :=
  let s0 : WorldScene :=
    { timerActive := false, width := 0, height := 0, transform := some QTransform.identity,
      planePos := ⟨0, 0⟩, frames := 0, zoom := z0, lastRenderTime := 0, calls := [] }
  let s1 := s0.adjustTransform v
  { s1 with frames := 0, zoom := ZOOM1, lastRenderTime := 0 }

/-! ### Rendering -/

/-- Local constant `MAX_DISPLAYED_MESSAGES` of `render`. -/
def MAX_DISPLAYED_MESSAGES : Nat := 5

/-- Local constant `MAX_MESSAGE_AGE` of `render` (5 s). -/
def MAX_MESSAGE_AGE : ℚ := 5

/-- The `while` loop of `render` acquiring the messages.  The counter is
`last + 1` for the loop variable `last`, so that `0` stands for `last = -1`
(the test `last >= 0` fails); `messages` is the list built so far. -/
def messageLoop (all : List Message) (minTime : ℚ) : Nat → List String → List String
  | 0, messages => messages
  | last + 1, messages =>
    if messages.length < MAX_DISPLAYED_MESSAGES then
      match all[last]? with
      | some m =>
        if m.time > minTime then
          messageLoop all minTime last (m.text :: messages)
        else
          messages
      | none => messages
    else
      messages

/-- The list `messages` that `render` joins and draws. -/
def displayedMessages (all : List Message) (time : ℚ) : List String :=
  let minTime := time - MAX_MESSAGE_AGE
  messageLoop all minTime all.length []

/-- `WorldScene::render`: renders.  `now` is the result of `getms()`.  The
painter output is kept as four calls: the world, the map, the texts of the
head-up display and the message log. -/
def render (s : WorldScene) (v : WorldView) (now : ℚ) : WorldScene :=
  let fps : Option ℚ :=
    if s.lastRenderTime = 0 then some 0 else fdiv 1000 (now - s.lastRenderTime)
  let s1 := { s with lastRenderTime := now }
  let s2 := s1.call Call.worldRender
  let s3 := s2.call Call.worldRenderMap
  let s4 := s3.call (Call.drawHud fps (! s3.isRunning))
  s4.call (Call.drawMessages (displayedMessages v.messages v.time))

end WorldScene

/-! ## Input events -/

/-- Values of `pEvent->button()` the handlers tell apart. -/
inductive MouseButton where
  | LeftButton | RightButton | otherButton
deriving DecidableEq, Repr

/-- A `QGraphicsSceneMouseEvent` as the handlers read it. -/
structure MouseEvent where
  /-- Value of `pEvent->isAccepted()` once the handler of the base class has run. -/
  acceptedByBase : Bool
  /-- Value of `pEvent->scenePos()`. -/
  scenePos : QPointF
  /-- Value of `pEvent->button()`. -/
  button : MouseButton
deriving DecidableEq, Repr

/-- A `QGraphicsSceneWheelEvent` as the handler reads it. -/
structure WheelEvent where
  /-- Value of `pEvent->isAccepted()` once the handler of the base class has run. -/
  acceptedByBase : Bool
  /-- Value of `pEvent->delta()`. -/
  delta : Int
deriving DecidableEq, Repr

/-- Values of `pEvent->key()` the handlers tell apart. -/
inductive Key where
  | Key_Space | Key_V | Key_F | Key_B | Key_A | Key_PageUp | Key_PageDown | Key_P
  | otherKey
deriving DecidableEq, Repr

/-- A `QKeyEvent` as the handlers read it. -/
structure KeyEvent where
  /-- Value of `pEvent->isAccepted()` once the handler of the base class has run. -/
  acceptedByBase : Bool
  /-- Value of `pEvent->isAutoRepeat()`. -/
  isAutoRepeat : Bool
  /-- Value of `pEvent->key()`. -/
  key : Key
deriving DecidableEq, Repr

namespace WorldScene

/-- `WorldScene::mouseMoveEvent`: handles mouse movement, implements mouse steering. -/
def mouseMoveEvent (s : WorldScene) (v : WorldView) (e : MouseEvent) : WorldScene :=
  let s1 := s.call (Call.base Handler.mouseMove)
  if e.acceptedByBase then s1
  else
    let s2 :=
      if ! v.autopilot then
        let y := (fdiv (-e.scenePos.y) s1.height).map fun q => 2 * (q + 1 / 2)
        s1.call (Call.setElevator y)
      else s1
    s2.call Call.setFocus

/-- `WorldScene::mousePressEvent`: handles mouse press. -/
def mousePressEvent (s : WorldScene) (e : MouseEvent) : WorldScene :=
  let s1 := s.call (Call.base Handler.mousePress)
  if e.acceptedByBase then s1
  else
    match e.button with
    | MouseButton.LeftButton => s1.call (Call.setFiring true)
    | MouseButton.RightButton => s1.call Call.releaseWeapon
    | MouseButton.otherButton => s1.call Call.ignore

/-- `WorldScene::mouseReleaseEvent`: handles mouse release. -/
def mouseReleaseEvent (s : WorldScene) (e : MouseEvent) : WorldScene :=
  let s1 := s.call (Call.base Handler.mouseRelease)
  if e.acceptedByBase then s1
  else
    match e.button with
    | MouseButton.LeftButton => s1.call (Call.setFiring false)
    | _ => s1.call Call.ignore

/-- `WorldScene::wheelEvent`: handles wheel, controls throttle. -/
def wheelEvent (s : WorldScene) (v : WorldView) (e : WheelEvent) : WorldScene :=
  let s1 := s.call (Call.base Handler.wheel)
  if ! e.acceptedByBase then
    let step : ℚ := (e.delta : ℚ) / 1200
    s1.call (Call.setThrottle (v.throttle + step))
  else s1

/-- `WorldScene::keyPressEvent`: handles key press. -/
def keyPressEvent (s : WorldScene) (v : WorldView) (e : KeyEvent) : WorldScene :=
  let s1 := s.call (Call.base Handler.keyPress)
  if e.acceptedByBase then s1
  else if e.isAutoRepeat then s1
  else
    match e.key with
    | Key.Key_Space => s1.call Call.flipPlane
    | Key.Key_V => s1.call (Call.setFlaps (v.flaps + 33 / 100))
    | Key.Key_F => s1.call (Call.setFlaps (v.flaps - 33 / 100))
    | Key.Key_B => s1.call (Call.applyWheelBrake true)
    | Key.Key_A => s1.call (Call.setAutopilot (! v.autopilot))
    | Key.Key_PageUp => { s1 with zoom := min (s1.zoom + 1) ZOOM3 }
    | Key.Key_PageDown => { s1 with zoom := max (s1.zoom - 1) ZOOM1 }
    | Key.Key_P => if s1.isRunning then s1.stop else s1.start
    | Key.otherKey => s1.call Call.ignore

/-- `WorldScene::keyReleaseEvent`: handles key release. -/
def keyReleaseEvent (s : WorldScene) (e : KeyEvent) : WorldScene :=
  if e.isAutoRepeat then s
  else
    match e.key with
    | Key.Key_B => s.call (Call.applyWheelBrake false)
    | _ => s.call Call.ignore

/-! ### Operations on the scene -/

/-- Everything that can happen to a scene: the public simulation control, a
time-out of the timer, a repaint, a resize and the six input events. -/
inductive Op where
  | start
  | stop
  | step (v : WorldView)
  | tick (v : WorldView)
  | render (v : WorldView) (now : ℚ)
  | resize (w h : Int) (v : WorldView)
  | mouseMove (v : WorldView) (e : MouseEvent)
  | mousePress (e : MouseEvent)
  | mouseRelease (e : MouseEvent)
  | wheel (v : WorldView) (e : WheelEvent)
  | keyPress (v : WorldView) (e : KeyEvent)
  | keyRelease (e : KeyEvent)
deriving DecidableEq, Repr

/-- Whether the operation is a call of `step`. -/
def Op.isStep : Op → Bool
  | Op.step _ => true
  | _ => false

/-- Whether the operation is a time-out of the timer. -/
def Op.isTick : Op → Bool
  | Op.tick _ => true
  | _ => false

/-- Effect of one operation.  A `tick` is the signal `timeout()` of `_timer`,
connected to `WorldWidget::onTimer`, which calls `WorldScene::onTimer`; a
timer that is not active emits no time-out. -/
def apply (s : WorldScene) : Op → WorldScene
  | Op.start => s.start
  | Op.stop => s.stop
  | Op.step v => s.step v
  | Op.tick v => if s.timerActive then s.onTimer v else s
  | Op.render v now => s.render v now
  | Op.resize w h v => s.resizeEvent w h v
  | Op.mouseMove v e => s.mouseMoveEvent v e
  | Op.mousePress e => s.mousePressEvent e
  | Op.mouseRelease e => s.mouseReleaseEvent e
  | Op.wheel v e => s.wheelEvent v e
  | Op.keyPress v e => s.keyPressEvent v e
  | Op.keyRelease e => s.keyReleaseEvent e

/-- Whether a call is a call of `World::simulate`. -/
def isSimulate : Call → Bool
  | Call.simulate _ => true
  | _ => false

/-- Number of calls of `World::simulate` made so far. -/
def simulateCount (s : WorldScene) : Nat :=
  s.calls.countP isSimulate

/-- The calls of `World::simulate` made so far, oldest first. -/
def simulateCalls (s : WorldScene) : List Call :=
  s.calls.filter isSimulate

/-- The scene after a sequence of key presses, each with the view of the plane
at the time of the press. -/
def keyPresses (s : WorldScene) (es : List (WorldView × KeyEvent)) : WorldScene :=
  es.foldl (fun t p => t.keyPressEvent p.1 p.2) s

end WorldScene

/-! ## Object classes of the world (`src/common/world.h`) -/

namespace World

/-- Enumerators of `World::ObjectType` (object classes), in the order of their
declaration. -/
inductive ObjectType where
  | ObjectSimulated
  | ObjectStatic
  | ObjectRendered
  | ObjectRenderedMap
  | ObjectPlane
  | ObjectInstallation
  | ObjectVehicle
  | ObjectAirfield
  | ObjectSide1
  | ObjectSide2
deriving DecidableEq, Repr

namespace ObjectType

/-- Value given to each enumerator in the declaration of `World::ObjectType`. -/
def value : ObjectType → Nat
  | ObjectSimulated => 0x000001
  | ObjectStatic => 0x000002
  | ObjectRendered => 0x000004
  | ObjectRenderedMap => 0x000080
  | ObjectPlane => 0x000080
  | ObjectInstallation => 0x000100
  | ObjectVehicle => 0x000200
  | ObjectAirfield => 0x000400
  | ObjectSide1 => 0x010000
  | ObjectSide2 => 0x020000

/-- All enumerators, in the order of their declaration. -/
def all : List ObjectType :=
  [ObjectSimulated, ObjectStatic, ObjectRendered, ObjectRenderedMap, ObjectPlane,
    ObjectInstallation, ObjectVehicle, ObjectAirfield, ObjectSide1, ObjectSide2]

end ObjectType

/-- Classification mask built from a list of flags: their bitwise
combination `f1 | f2 | ...`, as passed for `objectClass` to `addObject`. -/
def classMask (flags : List ObjectType) : Nat :=
  flags.foldl (fun m f => m ||| f.value) 0

/-- Whether a classification mask has a flag set: the test `mask & flag`. -/
def hasFlag (mask : Nat) (f : ObjectType) : Bool :=
  mask &&& f.value != 0

/-- The flags a classification mask decodes into: every enumerator whose test
on the mask succeeds, in the order of declaration. -/
def decode (mask : Nat) : List ObjectType :=
  ObjectType.all.filter (hasFlag mask)

end World

/-! ## Double arithmetic

The size of one anchor step and the image of the plane under the stored
transform depend on the rounding of `double` operations.  For them
`adjustTransform` is embedded a second time, with every operation rounded to
the nearest binary64 value.  The rounding function has no exponent ceiling:
a result of magnitude `2^1024` or more, which the format turns into an
infinity, stays a (huge) rational. -/

/-- Rounding of a rational to the nearest integer, ties to the even one. -/
def roundHalfEven (q : ℚ) : Int :=
  if q - ⌊q⌋ < 1 / 2 then ⌊q⌋
  else if 1 / 2 < q - ⌊q⌋ then ⌊q⌋ + 1
  else if ⌊q⌋ % 2 = 0 then ⌊q⌋
  else ⌊q⌋ + 1

/-- Exponent of the unit in the last place of binary64 at `q`: 52 below the
binary exponent of `q`, and `-1074` throughout the subnormal range. -/
def ulpExp (q : ℚ) : Int :=
  max (Int.log 2 |q|) (-1022) - 52

/-- The `double` nearest to `q` (round to nearest, ties to even, gradual
underflow): the default rounding of every `double` operation. -/
def roundDouble (q : ℚ) : ℚ :=
  roundHalfEven (q / 2 ^ ulpExp q) * 2 ^ ulpExp q

/-- A finite `double`: an integer of less than 54 bits times a power of two not
below `2^-1074`. -/
def isDouble (q : ℚ) : Prop :=
  ∃ n k : Int, |n| < 2 ^ 53 ∧ -1074 ≤ k ∧ q = (n : ℚ) * 2 ^ k

/-- Division of two doubles by a run-time divisor, rounded; `none` stands for
the non-finite result of a division by zero. -/
def fdivDouble (a b : ℚ) : Option ℚ :=
  if b = 0 then none else some (roundDouble (a / b))

namespace QTransform

/-- Qt's `QTransform::scale(sx, sy)` with every product rounded. -/
def scaleDouble (t : QTransform) (sx sy : ℚ) : QTransform :=
  ⟨roundDouble (t.m11 * sx), roundDouble (t.m12 * sx), roundDouble (t.m21 * sy),
    roundDouble (t.m22 * sy), t.dx, t.dy⟩

/-- Qt's `QTransform::translate(dx, dy)` with every operation rounded:
`_dx += dx*_m11 + dy*_m21` and `_dy += dy*_m22 + dx*_m12`. -/
def translateDouble (t : QTransform) (dx dy : ℚ) : QTransform :=
  ⟨t.m11, t.m12, t.m21, t.m22,
    roundDouble (t.dx + roundDouble (roundDouble (dx * t.m11) + roundDouble (dy * t.m21))),
    roundDouble (t.dy + roundDouble (roundDouble (dy * t.m22) + roundDouble (dx * t.m12)))⟩

/-- Qt's `QTransform::map(QPointF)` for an affine transformation with every
operation rounded: `m11*x + m21*y + dx` and `m12*x + m22*y + dy`. -/
def mapDouble (t : QTransform) (p : QPointF) : QPointF :=
  ⟨roundDouble (roundDouble (roundDouble (t.m11 * p.x) + roundDouble (t.m21 * p.y)) + t.dx),
    roundDouble (roundDouble (roundDouble (t.m12 * p.x) + roundDouble (t.m22 * p.y)) + t.dy)⟩

end QTransform

namespace WorldScene

/-- Local `zoom` of `adjustTransform` in double arithmetic. -/
def zoomFactorDouble (zoom : Int) (w h : Int) : Option ℚ :=
  let viewportSize : ℚ := ((max w h : Int) : ℚ)
  fdivDouble viewportSize (metersVisible zoom)

/-- Locals `posX`, `posY` of `adjustTransform` in double arithmetic; the
literal `0.35` is the double nearest to 35/100, the literal `0.5` is exact. -/
def desiredPosDouble (w h : Int) (velocity : QPointF) : QPointF :=
  ⟨roundDouble ((w : ℚ) * (1 / 2)),
    roundDouble ((h : ℚ) * (if |velocity.x| > 30 then roundDouble (35 / 100) else 1 / 2))⟩

/-- `WorldScene::adjustTransform` in double arithmetic: the same statements as
`adjustTransform`, each arithmetic operation followed by its rounding. -/
def adjustTransformDouble (s : WorldScene) (v : WorldView) : WorldScene :=
  let pos := v.position
  let velocity := v.linearVelocity
  let w : Int := cInt s.width
  let h : Int := cInt s.height
  let zoom := zoomFactorDouble s.zoom w h
  let posX := (desiredPosDouble w h velocity).x
  let posY := (desiredPosDouble w h velocity).y
  let maxSpeedX := roundDouble (300 * v.timestep)
  let maxSpeedY := roundDouble (50 * v.timestep)
  let ex := max (-maxSpeedX) (min maxSpeedX (roundDouble (s.planePos.x - posX)))
  let ey := max (-maxSpeedY) (min maxSpeedY (roundDouble (s.planePos.y - posY)))
  let planePos : QPointF := ⟨roundDouble (s.planePos.x - ex), roundDouble (s.planePos.y - ey)⟩
  let t : Option QTransform :=
    zoom.bind fun z =>
      (fdivDouble planePos.x z).bind fun ax =>
        (fdivDouble planePos.y z).bind fun ay =>
          some ((QTransform.identity.scaleDouble z (-z)).translateDouble
            (roundDouble (-pos.x + ax)) (roundDouble (-pos.y - ay)))
  { s with transform := t, planePos := planePos }

end WorldScene

/-! ## Sample inputs -/

/-- A plane at `(120, 40)` flying at 45 m/s with a world timestep of 1/10 s
and three messages. -/
def sampleView : WorldView :=
  { position := ⟨120, 40⟩, linearVelocity := ⟨45, 0⟩, timestep := 1 / 10, time := 20,
    messages := [⟨3, "take off"⟩, ⟨16, "gear up"⟩, ⟨19, "bomb released"⟩],
    autopilot := false, flaps := 0, throttle := 1 / 2 }

/-- The sample plane in a world whose timestep is 1/60 s, different from the
`1/FPS` of the scene. -/
def sampleViewFine : WorldView :=
  { sampleView with timestep := 1 / 60 }

/-- The sample plane in a world whose timestep is 1/8 s. -/
def sampleViewEighth : WorldView :=
  { sampleView with timestep := 1 / 8 }

/-- A stopped scene of 1000 x 600 pixels at the closest zoom level, with the
anchor far from the place it should have. -/
def sampleScene : WorldScene :=
  { timerActive := false, width := 1000, height := 600, transform := none,
    planePos := ⟨0, 0⟩, frames := 0, zoom := ZOOM1, lastRenderTime := 0, calls := [] }

/-- A press of the left mouse button at the top edge that no item of the scene
has accepted. -/
def sampleLeftPress : MouseEvent :=
  { acceptedByBase := false, scenePos := ⟨10, 0⟩, button := MouseButton.LeftButton }

/-- A mouse move at the top edge that an item of the scene (such as an embedded
widget) has accepted. -/
def sampleAcceptedMove : MouseEvent :=
  { acceptedByBase := true, scenePos := ⟨10, 0⟩, button := MouseButton.otherButton }

/-- A mouse move at three quarters of the height that nobody has accepted. -/
def sampleMove : MouseEvent :=
  { acceptedByBase := false, scenePos := ⟨10, 450⟩, button := MouseButton.otherButton }

/-- A release of the key `B` that is not an auto-repeat. -/
def sampleBrakeRelease : KeyEvent :=
  { acceptedByBase := false, isAutoRepeat := false, key := Key.Key_B }

/-- A press of `PageUp` generated by the keyboard auto-repeat. -/
def sampleRepeatedPageUp : KeyEvent :=
  { acceptedByBase := false, isAutoRepeat := true, key := Key.Key_PageUp }

/-- A first press of `PageUp`. -/
def samplePageUp : KeyEvent :=
  { acceptedByBase := false, isAutoRepeat := false, key := Key.Key_PageUp }

/-- The double nearest to 1/10. -/
def doubleTenth : ℚ := 3602879701896397 / 2 ^ 55

/-- A slow plane at `(121, 40)` in a world whose timestep is the double `0.1`. -/
def slowView : WorldView :=
  { position := ⟨121, 40⟩, linearVelocity := ⟨0, 0⟩, timestep := doubleTenth, time := 20,
    messages := [], autopilot := false, flaps := 0, throttle := 1 / 2 }

/-- A scene of 800 x 601 pixels whose anchor is on its way down to the centre:
the vertical coordinate is the double `255.35` that the anchor has after
`resized`, 41 ticks with a fast plane and 9 ticks with a slow one (timestep
`0.1`). -/
def driftingScene : WorldScene :=
  { timerActive := true, width := 800, height := 601, transform := none,
    planePos := ⟨400, 8984329412883251 / 2 ^ 45⟩, frames := 50, zoom := ZOOM1,
    lastRenderTime := 0, calls := [] }

/-- A scene of 800 x 600 pixels at zoom level 2 whose anchor is at rest in the
centre, as `resized` leaves it. -/
def centredScene : WorldScene :=
  { timerActive := true, width := 800, height := 600, transform := none,
    planePos := ⟨400, 300⟩, frames := 0, zoom := ZOOM2, lastRenderTime := 0, calls := [] }

/-! ## Auxiliary facts -/

theorem fdiv_of_ne (a : ℚ) {b : ℚ} (hb : b ≠ 0) : fdiv a b = some (a / b) := by
  simp [fdiv, hb]

theorem fdiv_zero (a : ℚ) : fdiv a 0 = none := by
  simp [fdiv]

theorem cInt_intCast (n : Int) : cInt (n : ℚ) = n := by
  unfold cInt
  split <;> simp

/-! ### Rounding -/

theorem roundHalfEven_sub_le (q : ℚ) : |(roundHalfEven q : ℚ) - q| ≤ 1 / 2 := by
  have h1 := Int.floor_le q
  have h2 := Int.lt_floor_add_one q
  unfold roundHalfEven
  rw [abs_le]
  split_ifs with a b c
  · constructor <;> linarith
  · push_cast
    constructor <;> linarith
  · constructor <;> linarith
  · push_cast
    constructor <;> linarith

theorem roundHalfEven_intCast (n : Int) : roundHalfEven (n : ℚ) = n := by
  simp [roundHalfEven]

theorem roundHalfEven_nonneg {q : ℚ} (h : 0 ≤ q) : 0 ≤ roundHalfEven q := by
  have h0 : 0 ≤ ⌊q⌋ := Int.floor_nonneg.mpr h
  unfold roundHalfEven
  split_ifs <;> omega

theorem roundHalfEven_eq_of_abs_lt {q : ℚ} {n : Int} (h : |q - n| < 1 / 2) :
    roundHalfEven q = n := by
  rw [abs_lt] at h
  by_cases hn : (n : ℚ) ≤ q
  · have hf : ⌊q⌋ = n := Int.floor_eq_iff.mpr ⟨hn, by linarith⟩
    unfold roundHalfEven
    rw [hf, if_pos (by linarith)]
  · push_neg at hn
    have hf : ⌊q⌋ = n - 1 := Int.floor_eq_iff.mpr ⟨by push_cast; linarith, by push_cast; linarith⟩
    unfold roundHalfEven
    rw [hf]
    push_cast
    rw [if_neg (by linarith), if_pos (by linarith)]
    ring

theorem roundHalfEven_tie_even {q : ℚ} {n : Int} (h : q = n + 1 / 2) (he : n % 2 = 0) :
    roundHalfEven q = n := by
  have hf : ⌊q⌋ = n := Int.floor_eq_iff.mpr ⟨by linarith, by linarith⟩
  unfold roundHalfEven
  rw [hf, if_neg (by linarith), if_neg (by linarith), if_pos he]

theorem roundHalfEven_tie_odd {q : ℚ} {n : Int} (h : q = n + 1 / 2) (he : n % 2 = 1) :
    roundHalfEven q = n + 1 := by
  have hf : ⌊q⌋ = n := Int.floor_eq_iff.mpr ⟨by linarith, by linarith⟩
  unfold roundHalfEven
  rw [hf, if_neg (by linarith), if_neg (by linarith), if_neg (by omega)]

theorem two_zpow_pos (k : Int) : (0 : ℚ) < 2 ^ k := zpow_pos (by norm_num) k

theorem roundDouble_zero : roundDouble 0 = 0 := by
  simp [roundDouble, roundHalfEven]

theorem roundDouble_nonneg {q : ℚ} (h : 0 ≤ q) : 0 ≤ roundDouble q := by
  unfold roundDouble
  have h1 : 0 ≤ q / 2 ^ ulpExp q := div_nonneg h (two_zpow_pos _).le
  have h2 := roundHalfEven_nonneg h1
  exact mul_nonneg (by exact_mod_cast h2) (two_zpow_pos _).le

theorem ulpExp_ge (q : ℚ) : -1074 ≤ ulpExp q := by
  unfold ulpExp
  have := le_max_right (Int.log 2 |q|) (-1022)
  omega

/-- The binary exponent of a value between two consecutive powers of two. -/
theorem log_abs_eq {q : ℚ} {e : Int} (h1 : 2 ^ e ≤ |q|) (h2 : |q| < 2 ^ (e + 1)) :
    Int.log 2 |q| = e := by
  have hpos : 0 < |q| := lt_of_lt_of_le (two_zpow_pos e) h1
  have a : e ≤ Int.log 2 |q| := (Int.zpow_le_iff_le_log (by norm_num) hpos).mp (by exact_mod_cast h1)
  have b : Int.log 2 |q| < e + 1 := (Int.lt_zpow_iff_log_lt (by norm_num) hpos).mp (by exact_mod_cast h2)
  omega

theorem roundDouble_eq {q : ℚ} {e : Int} (h1 : 2 ^ e ≤ |q|) (h2 : |q| < 2 ^ (e + 1))
    (h3 : -1022 ≤ e) :
    roundDouble q = roundHalfEven (q / 2 ^ (e - 52)) * 2 ^ (e - 52) := by
  have hu : ulpExp q = e - 52 := by
    unfold ulpExp
    rw [log_abs_eq h1 h2, max_eq_left h3]
  unfold roundDouble
  rw [hu]

/-- The rounding error of one operation: at most `2^-53` relative to the exact
result, or `2^-1075` in the subnormal range. -/
theorem roundDouble_sub_le (q : ℚ) :
    |roundDouble q - q| ≤ 2 ^ (-53 : Int) * |q| + 2 ^ (-1075 : Int) := by
  have hk := two_zpow_pos (ulpExp q)
  have herr : |roundDouble q - q| ≤ 2 ^ (ulpExp q - 1) := by
    have h := roundHalfEven_sub_le (q / 2 ^ ulpExp q)
    have e1 : roundDouble q - q
        = ((roundHalfEven (q / 2 ^ ulpExp q) : ℚ) - q / 2 ^ ulpExp q) * 2 ^ ulpExp q := by
      unfold roundDouble
      field_simp
    rw [e1, abs_mul, abs_of_pos hk]
    have e2 : (2 : ℚ) ^ (ulpExp q - 1) = 1 / 2 * 2 ^ ulpExp q := by
      rw [zpow_sub₀ (by norm_num : (2 : ℚ) ≠ 0)]
      simp
      ring
    rw [e2]
    exact mul_le_mul_of_nonneg_right h hk.le
  by_cases hq : q = 0
  · rw [hq, roundDouble_zero]
    simp
    positivity
  have hpos : 0 < |q| := abs_pos.mpr hq
  by_cases hL : -1022 ≤ Int.log 2 |q|
  · have hu : ulpExp q - 1 = Int.log 2 |q| + (-53) := by
      unfold ulpExp
      rw [max_eq_left hL]
      ring
    have hle : (2 : ℚ) ^ Int.log 2 |q| ≤ |q| := by
      have := Int.zpow_log_le_self (b := 2) (by norm_num) hpos
      exact_mod_cast this
    rw [hu, zpow_add₀ (by norm_num : (2 : ℚ) ≠ 0)] at herr
    have h53 := two_zpow_pos (-53)
    have h1075 := two_zpow_pos (-1075)
    calc |roundDouble q - q| ≤ 2 ^ Int.log 2 |q| * 2 ^ (-53 : Int) := herr
      _ ≤ |q| * 2 ^ (-53 : Int) := mul_le_mul_of_nonneg_right hle h53.le
      _ ≤ 2 ^ (-53 : Int) * |q| + 2 ^ (-1075 : Int) := by linarith
  · push_neg at hL
    have hu : ulpExp q - 1 = -1075 := by
      unfold ulpExp
      rw [max_eq_right hL.le]
      norm_num
    rw [hu] at herr
    have : 0 ≤ (2 : ℚ) ^ (-53 : Int) * |q| := mul_nonneg (two_zpow_pos _).le (abs_nonneg _)
    linarith




/-- A value `n * 2^k` with `|n| < 2^53` and `k >= -1074` is a double: rounding
leaves it as it is. -/
theorem roundDouble_of_rep {n k : Int} (hn : |n| < 2 ^ 53) (hk : -1074 ≤ k) :
    roundDouble ((n : ℚ) * 2 ^ k) = (n : ℚ) * 2 ^ k := by
  by_cases h0 : n = 0
  · rw [h0]
    simp [roundDouble_zero]
  have hk2 := two_zpow_pos k
  have hnq : (0 : ℚ) < |(n : ℚ)| := abs_pos.mpr (by exact_mod_cast h0)
  have hpos : 0 < |(n : ℚ) * 2 ^ k| := by
    rw [abs_mul, abs_of_pos hk2]
    exact mul_pos hnq hk2
  have hlt : |(n : ℚ) * 2 ^ k| < 2 ^ (k + 53) := by
    rw [abs_mul, abs_of_pos hk2, zpow_add₀ (by norm_num : (2 : ℚ) ≠ 0), mul_comm]
    apply mul_lt_mul_of_pos_left _ hk2
    have : ((|n| : Int) : ℚ) < ((2 ^ 53 : Int) : ℚ) := by exact_mod_cast hn
    rw [zpow_ofNat]
    push_cast at this
    exact this
  have hlog : Int.log 2 |(n : ℚ) * 2 ^ k| < k + 53 :=
    (Int.lt_zpow_iff_log_lt (by norm_num) hpos).mp (by exact_mod_cast hlt)
  have hj : ulpExp ((n : ℚ) * 2 ^ k) ≤ k := by
    unfold ulpExp
    have := max_le (show Int.log 2 |(n : ℚ) * 2 ^ k| ≤ k + 52 by omega)
      (show (-1022 : Int) ≤ k + 52 by omega)
    omega
  obtain ⟨j, hjdef⟩ : ∃ j, j = ulpExp ((n : ℚ) * 2 ^ k) := ⟨_, rfl⟩
  rw [← hjdef] at hj
  obtain ⟨d, hd⟩ : ∃ d : ℕ, k = j + d := ⟨(k - j).toNat, by omega⟩
  have hj2 := two_zpow_pos j
  have hsplit : (2 : ℚ) ^ k = 2 ^ j * 2 ^ d := by
    rw [hd, zpow_add₀ (by norm_num : (2 : ℚ) ≠ 0), zpow_natCast]
  have hquot : (n : ℚ) * 2 ^ k / 2 ^ j = ((n * 2 ^ d : Int) : ℚ) := by
    rw [hsplit]
    push_cast
    field_simp
    ring
  unfold roundDouble
  rw [← hjdef, hquot, roundHalfEven_intCast, hsplit]
  push_cast
  ring

/-- Every rounded value is a double. -/
theorem roundDouble_rep (q : ℚ) :
    ∃ n k : Int, |n| < 2 ^ 53 ∧ -1074 ≤ k ∧ roundDouble q = (n : ℚ) * 2 ^ k := by
  by_cases h0 : q = 0
  · exact ⟨0, 0, by norm_num, by norm_num, by rw [h0, roundDouble_zero]; simp⟩
  have hpos : 0 < |q| := abs_pos.mpr h0
  have hj := two_zpow_pos (ulpExp q)
  have hge := ulpExp_ge q
  have hlt : |q| < 2 ^ (ulpExp q + 53) := by
    have h1 : |q| < 2 ^ (Int.log 2 |q| + 1) := by
      have := Int.lt_zpow_succ_log_self (b := 2) (by norm_num) |q|
      exact_mod_cast this
    refine lt_of_lt_of_le h1 (zpow_le_zpow_right₀ (by norm_num) ?_)
    unfold ulpExp
    have := le_max_left (Int.log 2 |q|) (-1022)
    omega
  have hquot : |q / 2 ^ ulpExp q| < 2 ^ 53 := by
    rw [abs_div, abs_of_pos hj, div_lt_iff₀ hj]
    rw [zpow_add₀ (by norm_num : (2 : ℚ) ≠ 0)] at hlt
    have e : (2 : ℚ) ^ (53 : Int) = 2 ^ 53 := by norm_num
    rw [e] at hlt
    linarith
  have herr := roundHalfEven_sub_le (q / 2 ^ ulpExp q)
  have hN : |roundHalfEven (q / 2 ^ ulpExp q)| ≤ 2 ^ 53 := by
    have h1 : |(roundHalfEven (q / 2 ^ ulpExp q) : ℚ)| < 2 ^ 53 + 1 := by
      rw [abs_lt] at hquot ⊢
      rw [abs_le] at herr
      constructor <;> linarith [herr.1, herr.2, hquot.1, hquot.2]
    have h3 : |roundHalfEven (q / 2 ^ ulpExp q)| < 2 ^ 53 + 1 := by exact_mod_cast h1
    omega
  rcases lt_or_eq_of_le hN with hlt2 | heq
  · exact ⟨_, _, hlt2, hge, rfl⟩
  · rcases abs_eq (by norm_num : (0 : Int) ≤ 2 ^ 53) |>.mp heq with hp | hm
    · refine ⟨2 ^ 52, ulpExp q + 1, by norm_num, by omega, ?_⟩
      unfold roundDouble
      rw [hp, zpow_add₀ (by norm_num : (2 : ℚ) ≠ 0)]
      norm_num
      ring
    · refine ⟨-2 ^ 52, ulpExp q + 1, by norm_num, by omega, ?_⟩
      unfold roundDouble
      rw [hm, zpow_add₀ (by norm_num : (2 : ℚ) ≠ 0)]
      norm_num
      ring

theorem roundDouble_idem (q : ℚ) : roundDouble (roundDouble q) = roundDouble q := by
  obtain ⟨n, k, hn, hk, h⟩ := roundDouble_rep q
  rw [h, roundDouble_of_rep hn hk]

/-- Rounding leaves a value alone once it is written as `n * 2^k` with
`|n| < 2^53` and `k >= -1074`. -/
theorem roundDouble_eq_self {q : ℚ} (n k : Int) (h : q = (n : ℚ) * 2 ^ k) (hn : |n| < 2 ^ 53)
    (hk : -1074 ≤ k) : roundDouble q = q := by
  rw [h, roundDouble_of_rep hn hk]

/-- Rounding of a value in the binade of `2^e` whose quotient by the unit in
the last place is nearer to the integer `n` than to any other. -/
theorem roundDouble_eq_near {q : ℚ} (e n : Int) (h1 : 2 ^ e ≤ |q|) (h2 : |q| < 2 ^ (e + 1))
    (h3 : -1022 ≤ e) (hn : |q / 2 ^ (e - 52) - n| < 1 / 2) :
    roundDouble q = (n : ℚ) * 2 ^ (e - 52) := by
  rw [roundDouble_eq h1 h2 h3, roundHalfEven_eq_of_abs_lt hn]

/-- Rounding of a value in the binade of `2^e` that lies half way between the
odd multiple `n` and the even multiple `n + 1` of the unit in the last place. -/
theorem roundDouble_eq_tie_odd {q : ℚ} (e n : Int) (h1 : 2 ^ e ≤ |q|) (h2 : |q| < 2 ^ (e + 1))
    (h3 : -1022 ≤ e) (hn : q / 2 ^ (e - 52) = n + 1 / 2) (ho : n % 2 = 1) :
    roundDouble q = ((n + 1 : Int) : ℚ) * 2 ^ (e - 52) := by
  rw [roundDouble_eq h1 h2 h3, roundHalfEven_tie_odd hn ho]

theorem isDouble_roundDouble (q : ℚ) : isDouble (roundDouble q) :=
  roundDouble_rep q

theorem roundDouble_of_isDouble {q : ℚ} (h : isDouble q) : roundDouble q = q := by
  obtain ⟨n, k, hn, hk, hq⟩ := h
  exact roundDouble_eq_self n k hq hn hk

theorem isDouble_neg {q : ℚ} (h : isDouble q) : isDouble (-q) := by
  obtain ⟨n, k, hn, hk, hq⟩ := h
  exact ⟨-n, k, by rwa [abs_neg], hk, by rw [hq]; push_cast; ring⟩

/-- A value of at least 1/625 rounds to a positive double. -/
theorem roundDouble_pos {q : ℚ} (h : 1 / 625 ≤ q) : 0 < roundDouble q := by
  have herr := roundDouble_sub_le q
  have hq : |q| = q := abs_of_pos (by linarith)
  rw [hq, abs_le] at herr
  have h1 : (2 : ℚ) ^ (-1075 : Int) ≤ 2 ^ (-53 : Int) :=
    zpow_le_zpow_right₀ (by norm_num) (by norm_num)
  have h2 : (2 : ℚ) ^ (-53 : Int) = 1 / 9007199254740992 := by norm_num
  rw [h2] at herr h1
  linarith [herr.1]

/-! ### Error propagation -/

theorem abs_add5 (a b c d e : ℚ) : |a + b + c + d + e| ≤ |a| + |b| + |c| + |d| + |e| := by
  have h1 := abs_add (a + b + c + d) e
  have h2 := abs_add (a + b + c) d
  have h3 := abs_add (a + b) c
  have h4 := abs_add a b
  linarith

/-- Propagation of the five rounding errors of `map(pos)`: with `a`, `t`, `D`,
`Q`, `M` within one rounding of `P/z`, `a - x`, `t*z`, `z*x` and `Q + D`, the
value `M` is within `2^-50 * (|P| + |z*x|) + 8*(z+1)*η` of `P`. -/
theorem map_error_core {z P x a t D Q M η : ℚ} (hz : 0 < z) (hη : 0 ≤ η)
    (h1 : |a - P / z| ≤ 2 ^ (-53 : Int) * |P / z| + η)
    (h2 : |t - (a - x)| ≤ 2 ^ (-53 : Int) * |a - x| + η)
    (h3 : |D - t * z| ≤ 2 ^ (-53 : Int) * |t * z| + η)
    (h4 : |Q - z * x| ≤ 2 ^ (-53 : Int) * |z * x| + η)
    (h5 : |M - (Q + D)| ≤ 2 ^ (-53 : Int) * |Q + D| + η) :
    |M - P| ≤ 2 ^ (-50 : Int) * (|P| + |z * x|) + 8 * (z + 1) * η := by
  have hu : (2 : ℚ) ^ (-53 : Int) = 1 / 9007199254740992 := by norm_num
  have hu' : (2 : ℚ) ^ (-50 : Int) = 1 / 1125899906842624 := by norm_num
  rw [hu] at h1 h2 h3 h4 h5
  rw [hu']
  have hzP : z * |P / z| = |P| := by
    rw [abs_div, abs_of_pos hz]
    field_simp
  have k1 : z * |a - P / z| ≤ 1 / 9007199254740992 * |P| + z * η := by
    have := mul_le_mul_of_nonneg_left h1 hz.le
    calc z * |a - P / z| ≤ z * (1 / 9007199254740992 * |P / z| + η) := this
      _ = 1 / 9007199254740992 * (z * |P / z|) + z * η := by ring
      _ = 1 / 9007199254740992 * |P| + z * η := by rw [hzP]
  have e1 : |z * (a - P / z)| = z * |a - P / z| := by rw [abs_mul, abs_of_pos hz]
  have e2 : |z * (t - (a - x))| = z * |t - (a - x)| := by rw [abs_mul, abs_of_pos hz]
  have e3 : |z * (a - x)| = z * |a - x| := by rw [abs_mul, abs_of_pos hz]
  have x2 : z * |a - x| ≤ z * |a - P / z| + |P| + |z * x| := by
    have hsplit : z * (a - x) = z * (a - P / z) + P + -(z * x) := by
      field_simp
      ring
    have := abs_add (z * (a - P / z) + P) (-(z * x))
    have := abs_add (z * (a - P / z)) P
    rw [← e3, hsplit, ← e1]
    rw [abs_neg] at *
    linarith
  have k2 : z * |t - (a - x)| ≤ 1 / 9007199254740992 * (z * |a - x|) + z * η := by
    have := mul_le_mul_of_nonneg_left h2 hz.le
    calc z * |t - (a - x)| ≤ z * (1 / 9007199254740992 * |a - x| + η) := this
      _ = 1 / 9007199254740992 * (z * |a - x|) + z * η := by ring
  have x3 : |t * z| ≤ z * |t - (a - x)| + z * |a - x| := by
    have hsplit : t * z = z * (t - (a - x)) + z * (a - x) := by ring
    have := abs_add (z * (t - (a - x))) (z * (a - x))
    rw [hsplit, ← e2, ← e3]
    exact this
  have x5 : |Q + D| ≤ |Q - z * x| + |D - t * z| + z * |t - (a - x)| + z * |a - P / z| + |P| := by
    have hsplit : Q + D = (Q - z * x) + (D - t * z) + z * (t - (a - x)) + z * (a - P / z) + P := by
      field_simp
      ring
    have := abs_add5 (Q - z * x) (D - t * z) (z * (t - (a - x))) (z * (a - P / z)) P
    rw [hsplit, ← e2, ← e1]
    exact this
  have fin : |M - P| ≤ |M - (Q + D)| + |Q - z * x| + |D - t * z| + z * |t - (a - x)|
      + z * |a - P / z| := by
    have hsplit : M - P = (M - (Q + D)) + (Q - z * x) + (D - t * z) + z * (t - (a - x))
        + z * (a - P / z) := by
      field_simp
      ring
    have := abs_add5 (M - (Q + D)) (Q - z * x) (D - t * z) (z * (t - (a - x))) (z * (a - P / z))
    rw [hsplit, ← e2, ← e1]
    exact this
  have hA := abs_nonneg P
  have hB := abs_nonneg (z * x)
  have hW : 0 ≤ z * η := mul_nonneg hz.le hη
  have n1 := abs_nonneg (a - P / z)
  have n2 : 0 ≤ z * |a - P / z| := mul_nonneg hz.le n1
  have n3 : 0 ≤ z * |a - x| := mul_nonneg hz.le (abs_nonneg _)
  have n4 : 0 ≤ z * |t - (a - x)| := mul_nonneg hz.le (abs_nonneg _)
  have n5 := abs_nonneg (t * z)
  have n6 := abs_nonneg (Q + D)
  have n7 := abs_nonneg (D - t * z)
  have n8 := abs_nonneg (Q - z * x)
  linarith

/-! ### Clamping -/

/-- The clamped step `qMax( -m, qMin( m, d ) )` is at most `m` in absolute value. -/
theorem abs_clamp_le {m : ℚ} (hm : 0 ≤ m) (d : ℚ) : |max (-m) (min m d)| ≤ m := by
  rw [abs_le]
  exact ⟨le_max_left _ _, max_le (by linarith) (min_le_left _ _)⟩

/-- The clamped step is the whole distance when the distance is within the cap. -/
theorem clamp_eq_of_abs_le {m d : ℚ} (h : |d| ≤ m) : max (-m) (min m d) = d := by
  rw [abs_le] at h
  rw [min_eq_right h.2, max_eq_right h.1]

/-- Moving by the clamped step never passes the target. -/
theorem clamp_between {m : ℚ} (hm : 0 ≤ m) (p q : ℚ) :
    min p q ≤ p - max (-m) (min m (p - q)) ∧ p - max (-m) (min m (p - q)) ≤ max p q := by
  rcases le_total (p - q) m with h1 | h1
  · rcases le_total (-m) (p - q) with h2 | h2
    · rw [min_eq_right h1, max_eq_right h2]
      constructor
      · simp
      · simp
    · rw [min_eq_right h1, max_eq_left h2]
      constructor
      · exact le_trans (min_le_left _ _) (by linarith)
      · exact le_trans (by linarith) (le_max_right _ _)
  · rw [min_eq_left h1, max_eq_right (by linarith)]
    constructor
    · exact le_trans (min_le_right _ _) (by linarith)
    · exact le_trans (by linarith) (le_max_left _ _)

/-- The clamped step is the cap when the distance is above the cap. -/
theorem clamp_eq_of_lt {m d : ℚ} (hm : 0 ≤ m) (h : m < d) : max (-m) (min m d) = m := by
  rw [min_eq_left h.le, max_eq_right (by linarith)]

/-- The clamped step is minus the cap when the distance is below minus the cap. -/
theorem clamp_eq_of_lt_neg {m d : ℚ} (h : d < -m) : max (-m) (min m d) = -m := by
  rw [max_eq_left]
  exact le_trans (min_le_right _ _) h.le

/-- Moving by the clamped step from farther than a positive cap ends strictly
closer to the target. -/
theorem clamp_closer {m : ℚ} (hm : 0 < m) (p q : ℚ) (h : m < |p - q|) :
    |p - max (-m) (min m (p - q)) - q| < |p - q| := by
  rcases lt_abs.mp h with h1 | h1
  · rw [clamp_eq_of_lt hm.le h1, abs_of_pos (by linarith : 0 < p - q),
      abs_of_pos (by linarith : 0 < p - m - q)]
    linarith
  · have h2 : p - q < -m := by linarith
    rw [clamp_eq_of_lt_neg h2, abs_of_neg (by linarith : p - q < 0),
      abs_of_neg (by linarith : p - -m - q < 0)]
    linarith

namespace WorldScene

theorem metersVisible_pos (z : Int) : 0 < metersVisible z := by
  unfold metersVisible
  split
  · norm_num
  · split <;> norm_num

theorem zoomFactor_eq (z w h : Int) :
    zoomFactor z w h = some (((max w h : Int) : ℚ) / metersVisible z) := by
  unfold zoomFactor
  exact fdiv_of_ne _ (metersVisible_pos z).ne.symm

theorem adjustTransform_planePos (s : WorldScene) (v : WorldView) :
    (s.adjustTransform v).planePos =
      ⟨s.planePos.x - max (-(300 * v.timestep)) (min (300 * v.timestep)
          (s.planePos.x - (desiredPos (cInt s.width) (cInt s.height) v.linearVelocity).x)),
        s.planePos.y - max (-(50 * v.timestep)) (min (50 * v.timestep)
          (s.planePos.y - (desiredPos (cInt s.width) (cInt s.height) v.linearVelocity).y))⟩ := by
  rfl

/-- The transform `adjustTransform` stores when the zoom factor `z` is not zero. -/
theorem adjustTransform_transform_of_ne (s : WorldScene) (v : WorldView) {z : ℚ}
    (hz : zoomFactor s.zoom (cInt s.width) (cInt s.height) = some z) (hne : z ≠ 0) :
    (s.adjustTransform v).transform =
      some ((QTransform.identity.scale z (-z)).translate
        (-v.position.x + (s.adjustTransform v).planePos.x / z)
        (-v.position.y - (s.adjustTransform v).planePos.y / z)) := by
  simp only [adjustTransform, hz, Option.some_bind, fdiv_of_ne _ hne]

/-- The transform `adjustTransform` stores when the zoom factor is zero. -/
theorem adjustTransform_transform_of_zero (s : WorldScene) (v : WorldView)
    (hz : zoomFactor s.zoom (cInt s.width) (cInt s.height) = some 0) :
    (s.adjustTransform v).transform = none := by
  simp only [adjustTransform, hz, Option.some_bind, fdiv_zero, Option.none_bind]

/-! ## The camera transform -/

theorem adjustTransformDouble_planePos (s : WorldScene) (v : WorldView) :
    (s.adjustTransformDouble v).planePos =
      ⟨roundDouble (s.planePos.x - max (-(roundDouble (300 * v.timestep)))
          (min (roundDouble (300 * v.timestep)) (roundDouble (s.planePos.x -
            (desiredPosDouble (cInt s.width) (cInt s.height) v.linearVelocity).x)))),
        roundDouble (s.planePos.y - max (-(roundDouble (50 * v.timestep)))
          (min (roundDouble (50 * v.timestep)) (roundDouble (s.planePos.y -
            (desiredPosDouble (cInt s.width) (cInt s.height) v.linearVelocity).y))))⟩ := by
  rfl

/-- One rounded subtraction of a step of at most `m` moves a value by at most
`m` plus the rounding error. -/
theorem abs_roundDouble_sub_step_le {m : ℚ} (p ex : ℚ) (hex : |ex| ≤ m) :
    |roundDouble (p - ex) - p| ≤ m + 2 ^ (-53 : Int) * (|p| + m) + 2 ^ (-1075 : Int) := by
  have h1 := roundDouble_sub_le (p - ex)
  have h2 : |p - ex| ≤ |p| + m := le_trans (abs_sub p ex) (by linarith)
  have h3 : (2 : ℚ) ^ (-53 : Int) * |p - ex| ≤ 2 ^ (-53 : Int) * (|p| + m) :=
    mul_le_mul_of_nonneg_left h2 (two_zpow_pos _).le
  have h4 : roundDouble (p - ex) - p = (roundDouble (p - ex) - (p - ex)) + (-ex) := by ring
  rw [h4]
  have h5 := abs_add (roundDouble (p - ex) - (p - ex)) (-ex)
  rw [abs_neg] at h5
  linarith

/-- C1 fails as stated: on a scene of 800 x 601 pixels with timestep `0.1` the
anchor at `y = 255.35` (a double with 45 fractional bits) is `45.15` above the
desired `300.5`, the clamped step is `-5`, and the sum `255.35 + 5` lies half
way between two doubles with 44 fractional bits.  The stored value is the
upper one, so the anchor moves by `5 + 2^-45`, more than `50 * dt`. -/
theorem anchor_step_exceeds_cap :
    (0 : ℚ) < slowView.timestep ∧
    roundDouble (50 * slowView.timestep) = 5 ∧
    (driftingScene.adjustTransformDouble slowView).planePos.y = 2290062818331853 / 2 ^ 43 ∧
    (driftingScene.adjustTransformDouble slowView).planePos.y - driftingScene.planePos.y
      = 5 + 1 / 2 ^ 45 ∧
    50 * slowView.timestep
      < |(driftingScene.adjustTransformDouble slowView).planePos.y - driftingScene.planePos.y| := by
  have hh : cInt driftingScene.height = 601 := by
    have := cInt_intCast 601
    simpa [driftingScene] using this
  have hdt : slowView.timestep = 3602879701896397 / 2 ^ 55 := rfl
  have hm : roundDouble (50 * slowView.timestep) = 5 := by
    rw [hdt, roundDouble_eq_near 2 5629499534213120
      (by rw [abs_of_pos (by norm_num)]; norm_num)
      (by rw [abs_of_pos (by norm_num)]; norm_num) (by norm_num)
      (by rw [abs_lt]; constructor <;> norm_num)]
    norm_num
  have hposY : (desiredPosDouble (cInt driftingScene.width) (cInt driftingScene.height)
      slowView.linearVelocity).y = 601 / 2 := by
    rw [hh]
    have hv : ¬ |slowView.linearVelocity.x| > 30 := by norm_num [slowView]
    simp only [desiredPosDouble, hv, if_false]
    rw [roundDouble_eq_self 601 (-1) (by norm_num) (by norm_num) (by norm_num)]
    norm_num
  have hp : driftingScene.planePos.y = 8984329412883251 / 2 ^ 45 := rfl
  have hd : roundDouble (driftingScene.planePos.y - 601 / 2)
      = 8984329412883251 / 2 ^ 45 - 601 / 2 := by
    rw [hp]
    exact roundDouble_eq_self (-1588574399810765) (-45) (by norm_num) (by norm_num)
      (by norm_num)
  have hey : max (-(5 : ℚ)) (min 5 (8984329412883251 / 2 ^ 45 - 601 / 2)) = -5 := by
    rw [min_eq_right (by norm_num), max_eq_left (by norm_num)]
  have hnew : roundDouble (driftingScene.planePos.y - -5) = 2290062818331853 / 2 ^ 43 := by
    rw [hp, roundDouble_eq_tie_odd 8 4580125636663705
      (by rw [abs_of_pos (by norm_num)]; norm_num)
      (by rw [abs_of_pos (by norm_num)]; norm_num) (by norm_num) (by norm_num) (by norm_num)]
    norm_num
  have hy : (driftingScene.adjustTransformDouble slowView).planePos.y
      = 2290062818331853 / 2 ^ 43 := by
    rw [adjustTransformDouble_planePos, hposY, hm, hd, hey, hnew]
  refine ⟨by norm_num [hdt], hm, hy, ?_, ?_⟩
  · rw [hy, hp]
    norm_num
  · rw [hy, hp, hdt]
    rw [abs_of_pos (by norm_num)]
    norm_num

/-- C1, amended: for every scene state (prior anchor, viewport size, zoom),
every plane velocity and every timestep `dt > 0`, one call of
`adjustTransform` subtracts from `planePos.x` a step of at most `300 * dt` and
from `planePos.y` a step of at most `50 * dt` in absolute value (the caps as
the doubles `maxSpeedX`, `maxSpeedY` the code computes) and stores the double
nearest to each difference.  So each coordinate changes by at most its cap
plus the rounding error of that one subtraction, which is at most `2^-53`
times the sum of the old magnitude and the cap, plus `2^-1075`. -/
theorem adjustTransformDouble_anchor_step (s : WorldScene) (v : WorldView)
    (hdt : 0 < v.timestep) :
    (∃ ex ey : ℚ,
      |ex| ≤ roundDouble (300 * v.timestep) ∧ |ey| ≤ roundDouble (50 * v.timestep) ∧
      (s.adjustTransformDouble v).planePos.x = roundDouble (s.planePos.x - ex) ∧
      (s.adjustTransformDouble v).planePos.y = roundDouble (s.planePos.y - ey)) ∧
    |(s.adjustTransformDouble v).planePos.x - s.planePos.x|
      ≤ roundDouble (300 * v.timestep)
        + 2 ^ (-53 : Int) * (|s.planePos.x| + roundDouble (300 * v.timestep))
        + 2 ^ (-1075 : Int) ∧
    |(s.adjustTransformDouble v).planePos.y - s.planePos.y|
      ≤ roundDouble (50 * v.timestep)
        + 2 ^ (-53 : Int) * (|s.planePos.y| + roundDouble (50 * v.timestep))
        + 2 ^ (-1075 : Int) := by
  have hmx : 0 ≤ roundDouble (300 * v.timestep) := roundDouble_nonneg (by linarith)
  have hmy : 0 ≤ roundDouble (50 * v.timestep) := roundDouble_nonneg (by linarith)
  rw [adjustTransformDouble_planePos]
  refine ⟨⟨_, _, abs_clamp_le hmx _, abs_clamp_le hmy _, rfl, rfl⟩, ?_, ?_⟩
  · exact abs_roundDouble_sub_step_le _ _ (abs_clamp_le hmx _)
  · exact abs_roundDouble_sub_step_le _ _ (abs_clamp_le hmy _)

/-- Witness of C1 on the drifting scene with the timestep `0.1`: the vertical
step of `5 + 2^-45` is within the cap 5 plus the rounding allowance. -/
theorem adjustTransformDouble_anchor_step_witness :
    (0 : ℚ) < slowView.timestep ∧
    |(driftingScene.adjustTransformDouble slowView).planePos.y - driftingScene.planePos.y|
      ≤ roundDouble (50 * slowView.timestep)
        + 2 ^ (-53 : Int) * (|driftingScene.planePos.y| + roundDouble (50 * slowView.timestep))
        + 2 ^ (-1075 : Int) :=
  have hdt : (0 : ℚ) < slowView.timestep := by norm_num [slowView, doubleTenth]
  ⟨hdt, (adjustTransformDouble_anchor_step driftingScene slowView hdt).2.2⟩

theorem metersVisible_le (z : Int) : metersVisible z ≤ 625 := by
  unfold metersVisible
  split
  · norm_num
  · split <;> norm_num

theorem zoomFactorDouble_eq (z w h : Int) :
    zoomFactorDouble z w h = some (roundDouble (((max w h : Int) : ℚ) / metersVisible z)) := by
  simp [zoomFactorDouble, fdivDouble, (metersVisible_pos z).ne.symm]

theorem zoomFactorDouble_pos (z w h : Int) (hpos : 0 < max w h) :
    0 < roundDouble (((max w h : Int) : ℚ) / metersVisible z) := by
  apply roundDouble_pos
  have h1 : (1 : ℚ) ≤ ((max w h : Int) : ℚ) := by exact_mod_cast hpos
  have h2 := metersVisible_pos z
  have h3 := metersVisible_le z
  rw [div_le_div_iff₀ (by norm_num) h2]
  nlinarith

theorem fdivDouble_of_ne (a : ℚ) {b : ℚ} (hb : b ≠ 0) :
    fdivDouble a b = some (roundDouble (a / b)) := by
  simp [fdivDouble, hb]

/-- The transform `adjustTransform` stores, in double arithmetic, when the
zoom factor `z` is not zero. -/
theorem adjustTransformDouble_transform_of_ne (s : WorldScene) (v : WorldView) {z : ℚ}
    (hz : zoomFactorDouble s.zoom (cInt s.width) (cInt s.height) = some z) (hne : z ≠ 0) :
    (s.adjustTransformDouble v).transform =
      some ((QTransform.identity.scaleDouble z (-z)).translateDouble
        (roundDouble (-v.position.x + roundDouble ((s.adjustTransformDouble v).planePos.x / z)))
        (roundDouble (-v.position.y - roundDouble ((s.adjustTransformDouble v).planePos.y / z)))) := by
  simp only [adjustTransformDouble, hz, Option.some_bind, fdivDouble_of_ne _ hne]

/-- The double transform built from a double zoom factor `z`: the scale is
stored as it is and the offsets are the rounded products. -/
theorem scale_translateDouble {z : ℚ} (hz : isDouble z) (tx ty : ℚ) :
    (QTransform.identity.scaleDouble z (-z)).translateDouble tx ty
      = ⟨z, 0, 0, -z, roundDouble (tx * z), roundDouble (ty * -z)⟩ := by
  have h1 : roundDouble z = z := roundDouble_of_isDouble hz
  have h2 : roundDouble (-z) = -z := roundDouble_of_isDouble (isDouble_neg hz)
  simp [QTransform.translateDouble, QTransform.scaleDouble, QTransform.identity,
    roundDouble_zero, roundDouble_idem, h1, h2]

/-- The image of a point under such a transform. -/
theorem mapDouble_scaled (z dx dy : ℚ) (p : QPointF) :
    (⟨z, 0, 0, -z, dx, dy⟩ : QTransform).mapDouble p
      = ⟨roundDouble (roundDouble (z * p.x) + dx), roundDouble (roundDouble (-z * p.y) + dy)⟩ := by
  simp [QTransform.mapDouble, roundDouble_zero, roundDouble_idem]

/-- The image of the plane's world position under the stored transform, in
double arithmetic, for a viewport whose longer side is positive. -/
theorem adjustTransformDouble_image (s : WorldScene) (v : WorldView)
    (hpos : 0 < max (cInt s.width) (cInt s.height)) :
    ∃ z t, zoomFactorDouble s.zoom (cInt s.width) (cInt s.height) = some z ∧
      z = roundDouble (((max (cInt s.width) (cInt s.height) : Int) : ℚ) / metersVisible s.zoom) ∧
      0 < z ∧
      (s.adjustTransformDouble v).transform = some t ∧
      t = (QTransform.identity.scaleDouble z (-z)).translateDouble
        (roundDouble (-v.position.x + roundDouble ((s.adjustTransformDouble v).planePos.x / z)))
        (roundDouble (-v.position.y - roundDouble ((s.adjustTransformDouble v).planePos.y / z))) ∧
      t.mapDouble v.position =
        ⟨roundDouble (roundDouble (z * v.position.x)
            + roundDouble (roundDouble (-v.position.x
                + roundDouble ((s.adjustTransformDouble v).planePos.x / z)) * z)),
          roundDouble (roundDouble (-z * v.position.y)
            + roundDouble (roundDouble (-v.position.y
                - roundDouble ((s.adjustTransformDouble v).planePos.y / z)) * -z))⟩ := by
  have hz := zoomFactorDouble_eq s.zoom (cInt s.width) (cInt s.height)
  have hzpos := zoomFactorDouble_pos s.zoom (cInt s.width) (cInt s.height) hpos
  have hd : isDouble (roundDouble
      (((max (cInt s.width) (cInt s.height) : Int) : ℚ) / metersVisible s.zoom)) :=
    isDouble_roundDouble _
  refine ⟨_, _, hz, rfl, hzpos, adjustTransformDouble_transform_of_ne s v hz hzpos.ne.symm,
    rfl, ?_⟩
  rw [scale_translateDouble hd, mapDouble_scaled]

/-- C2 fails as stated: on a scene of 800 x 600 pixels at `ZOOM2` with the
anchor at rest in the centre `(400, 300)`, the zoom factor is the double
nearest to 3.2, and for a plane at `x = 121` the stored transform maps the
plane to `x = 400 + 2^-44`, not to the anchor's 400. -/
theorem plane_image_misses_anchor :
    0 < max (cInt centredScene.width) (cInt centredScene.height) ∧
    zoomFactorDouble centredScene.zoom (cInt centredScene.width) (cInt centredScene.height)
      = some (3602879701896397 / 2 ^ 50) ∧
    (centredScene.adjustTransformDouble slowView).planePos.x = 400 ∧
    (∃ t, (centredScene.adjustTransformDouble slowView).transform = some t ∧
      (t.mapDouble slowView.position).x = 400 + 1 / 2 ^ 44 ∧
      (t.mapDouble slowView.position).x
        ≠ (centredScene.adjustTransformDouble slowView).planePos.x) := by
  have hw : cInt centredScene.width = 800 := by
    have := cInt_intCast 800
    simpa [centredScene] using this
  have hh : cInt centredScene.height = 600 := by
    have := cInt_intCast 600
    simpa [centredScene] using this
  have hpos : 0 < max (cInt centredScene.width) (cInt centredScene.height) := by
    rw [hw]
    exact lt_of_lt_of_le (by norm_num) (le_max_left _ _)
  have hmax : max (cInt centredScene.width) (cInt centredScene.height) = 800 := by
    rw [hw, hh]
    rfl
  have hmv : metersVisible centredScene.zoom = 250 := by
    norm_num [metersVisible, centredScene, ZOOM1, ZOOM2, ZOOM3]
  have hzval : roundDouble (((max (cInt centredScene.width) (cInt centredScene.height) : Int) : ℚ)
      / metersVisible centredScene.zoom) = 3602879701896397 / 2 ^ 50 := by
    rw [hmax, hmv, roundDouble_eq_near 1 7205759403792794
      (by rw [abs_of_pos (by norm_num)]; norm_num)
      (by rw [abs_of_pos (by norm_num)]; norm_num) (by norm_num)
      (by rw [abs_lt]; constructor <;> norm_num)]
    norm_num
  have hposX : (desiredPosDouble (cInt centredScene.width) (cInt centredScene.height)
      slowView.linearVelocity).x = 400 := by
    rw [hw]
    simp only [desiredPosDouble]
    rw [roundDouble_eq_self 400 0 (by norm_num) (by norm_num) (by norm_num)]
    norm_num
  have hm : 0 ≤ roundDouble (300 * slowView.timestep) :=
    roundDouble_nonneg (by norm_num [slowView, doubleTenth])
  have hPx : (centredScene.adjustTransformDouble slowView).planePos.x = 400 := by
    rw [adjustTransformDouble_planePos, hposX]
    have hp : centredScene.planePos.x = 400 := rfl
    simp only [hp, sub_self, roundDouble_zero]
    rw [min_eq_right hm, max_eq_right (by linarith)]
    simp only [sub_zero]
    exact roundDouble_eq_self 400 0 (by norm_num) (by norm_num) (by norm_num)
  obtain ⟨z, t, hz, hzdef, _, ht, _, himg⟩ :=
    adjustTransformDouble_image centredScene slowView hpos
  rw [hzval] at hzdef
  have hx : (t.mapDouble slowView.position).x = 400 + 1 / 2 ^ 44 := by
    rw [himg, hPx, hzdef]
    have hpx : slowView.position.x = 121 := rfl
    simp only [hpx]
    have ha : roundDouble ((400 : ℚ) / (3602879701896397 / 2 ^ 50)) = 125 := by
      rw [roundDouble_eq_near 6 8796093022208000
        (by rw [abs_of_pos (by norm_num)]; norm_num)
        (by rw [abs_of_pos (by norm_num)]; norm_num) (by norm_num)
        (by rw [abs_lt]; constructor <;> norm_num)]
      norm_num
    have htx : roundDouble (-121 + (125 : ℚ)) = 4 := by
      rw [roundDouble_eq_self 4 0 (by norm_num) (by norm_num) (by norm_num)]
      norm_num
    have hdx : roundDouble ((4 : ℚ) * (3602879701896397 / 2 ^ 50))
        = 3602879701896397 / 2 ^ 48 := by
      rw [roundDouble_eq_self 3602879701896397 (-48) (by norm_num) (by norm_num)
        (by norm_num)]
      norm_num
    have hq : roundDouble ((3602879701896397 : ℚ) / 2 ^ 50 * 121)
        = 1702923609099469 / 2 ^ 42 := by
      rw [roundDouble_eq_near 8 6811694436397876
        (by rw [abs_of_pos (by norm_num)]; norm_num)
        (by rw [abs_of_pos (by norm_num)]; norm_num) (by norm_num)
        (by rw [abs_lt]; constructor <;> norm_num)]
      norm_num
    have hsum : roundDouble ((1702923609099469 : ℚ) / 2 ^ 42 + 3602879701896397 / 2 ^ 48)
        = 7036874417766401 / 2 ^ 44 := by
      rw [roundDouble_eq_near 8 7036874417766401
        (by rw [abs_of_pos (by norm_num)]; norm_num)
        (by rw [abs_of_pos (by norm_num)]; norm_num) (by norm_num)
        (by rw [abs_lt]; constructor <;> norm_num)]
      norm_num
    rw [ha, htx, hdx, hq, hsum]
    norm_num
  refine ⟨hpos, ?_, hPx, t, ht, hx, ?_⟩
  · rw [hz, hzdef]
  · rw [hx, hPx]
    norm_num

/-- C2, amended: for every plane world position and every viewport whose
longer side is positive, the transform built by `adjustTransform` is the
identity scaled by `(zoom, -zoom)` and then translated by
`(-pos.x + planePos.x/zoom, -pos.y - planePos.y/zoom)`, all computed in
doubles with a positive zoom factor, and it maps the plane's world position to
the updated anchor `planePos` up to the rounding of the five double operations
involved: the image differs from the anchor by at most
`2^-50 * (|anchor| + |zoom * pos|) + 8 * (zoom + 1) * 2^-1075` in each
coordinate. -/
theorem adjustTransformDouble_maps_plane_near_anchor (s : WorldScene) (v : WorldView)
    (hpos : 0 < max (cInt s.width) (cInt s.height)) :
    ∃ z t, zoomFactorDouble s.zoom (cInt s.width) (cInt s.height) = some z ∧
      0 < z ∧
      (s.adjustTransformDouble v).transform = some t ∧
      t = (QTransform.identity.scaleDouble z (-z)).translateDouble
        (roundDouble (-v.position.x + roundDouble ((s.adjustTransformDouble v).planePos.x / z)))
        (roundDouble (-v.position.y - roundDouble ((s.adjustTransformDouble v).planePos.y / z))) ∧
      |(t.mapDouble v.position).x - (s.adjustTransformDouble v).planePos.x|
        ≤ 2 ^ (-50 : Int) * (|(s.adjustTransformDouble v).planePos.x| + |z * v.position.x|)
          + 8 * (z + 1) * 2 ^ (-1075 : Int) ∧
      |(t.mapDouble v.position).y - (s.adjustTransformDouble v).planePos.y|
        ≤ 2 ^ (-50 : Int) * (|(s.adjustTransformDouble v).planePos.y| + |z * v.position.y|)
          + 8 * (z + 1) * 2 ^ (-1075 : Int) := by
  obtain ⟨z, t, hz, _, hzpos, ht, htdef, himg⟩ := adjustTransformDouble_image s v hpos
  refine ⟨z, t, hz, hzpos, ht, htdef, ?_, ?_⟩
  · rw [himg]
    generalize (s.adjustTransformDouble v).planePos.x = P
    generalize v.position.x = x
    have h2 : |roundDouble (-x + roundDouble (P / z)) - (roundDouble (P / z) - x)|
        ≤ 2 ^ (-53 : Int) * |roundDouble (P / z) - x| + 2 ^ (-1075 : Int) := by
      have e : -x + roundDouble (P / z) = roundDouble (P / z) - x := by ring
      rw [← e]
      exact roundDouble_sub_le _
    exact map_error_core hzpos (two_zpow_pos _).le (roundDouble_sub_le _) h2
      (roundDouble_sub_le _) (roundDouble_sub_le _) (roundDouble_sub_le _)
  · rw [himg]
    generalize (s.adjustTransformDouble v).planePos.y = P
    generalize v.position.y = y
    have h2 : |-roundDouble (-y - roundDouble (P / z)) - (roundDouble (P / z) - -y)|
        ≤ 2 ^ (-53 : Int) * |roundDouble (P / z) - -y| + 2 ^ (-1075 : Int) := by
      have e1 : -roundDouble (-y - roundDouble (P / z)) - (roundDouble (P / z) - -y)
          = -(roundDouble (-y - roundDouble (P / z)) - (-y - roundDouble (P / z))) := by ring
      have e2 : roundDouble (P / z) - -y = -(-y - roundDouble (P / z)) := by ring
      rw [e1, abs_neg, e2, abs_neg]
      exact roundDouble_sub_le _
    have h3 : |roundDouble (roundDouble (-y - roundDouble (P / z)) * -z)
          - -roundDouble (-y - roundDouble (P / z)) * z|
        ≤ 2 ^ (-53 : Int) * |-roundDouble (-y - roundDouble (P / z)) * z|
          + 2 ^ (-1075 : Int) := by
      have e : -roundDouble (-y - roundDouble (P / z)) * z
          = roundDouble (-y - roundDouble (P / z)) * -z := by ring
      rw [e]
      exact roundDouble_sub_le _
    have h4 : |roundDouble (-z * y) - z * -y|
        ≤ 2 ^ (-53 : Int) * |z * -y| + 2 ^ (-1075 : Int) := by
      have e : z * -y = -z * y := by ring
      rw [e]
      exact roundDouble_sub_le _
    have h := map_error_core hzpos (two_zpow_pos _).le (roundDouble_sub_le (P / z)) h2 h3 h4
      (roundDouble_sub_le _)
    have e : |z * -y| = |z * y| := by rw [mul_neg, abs_neg]
    rw [e] at h
    exact h

/-- Witness of C2 on the centred scene (800 x 600 pixels at `ZOOM2`, plane at
`(121, 40)`): the image of the plane is within the rounding allowance of the
anchor. -/
theorem adjustTransformDouble_maps_plane_near_anchor_witness :
    0 < max (cInt centredScene.width) (cInt centredScene.height) ∧
    ∃ z t, zoomFactorDouble centredScene.zoom (cInt centredScene.width)
        (cInt centredScene.height) = some z ∧
      (centredScene.adjustTransformDouble slowView).transform = some t ∧
      |(t.mapDouble slowView.position).x - (centredScene.adjustTransformDouble slowView).planePos.x|
        ≤ 2 ^ (-50 : Int)
            * (|(centredScene.adjustTransformDouble slowView).planePos.x|
              + |z * slowView.position.x|)
          + 8 * (z + 1) * 2 ^ (-1075 : Int) := by
  have hpos : 0 < max (cInt centredScene.width) (cInt centredScene.height) := by
    have hw : cInt centredScene.width = 800 := by
      have := cInt_intCast 800
      simpa [centredScene] using this
    rw [hw]
    exact lt_of_lt_of_le (by norm_num) (le_max_left _ _)
  obtain ⟨z, t, hz, _, ht, _, hx, _⟩ :=
    adjustTransformDouble_maps_plane_near_anchor centredScene slowView hpos
  exact ⟨hpos, z, t, hz, ht, hx⟩

/-- C3: the desired anchor of `adjustTransform` is `(w*0.5, h*0.35)` when
`|velocity.x| > 30` and `(w*0.5, h*0.5)` otherwise; for every prior `planePos`
and every `dt >= 0` each coordinate of the new `planePos` lies between its old
value and the desired value (inclusive), and it equals the desired value
whenever the old distance in that axis is at most the cap (`300*dt`
horizontally, `50*dt` vertically).  When the old distance exceeds the cap and
`dt > 0`, the coordinate ends strictly closer to the desired value than it
was: the call does move the anchor toward the desired anchor. -/
theorem adjustTransform_anchor_toward_desired (s : WorldScene) (v : WorldView)
    (hdt : 0 ≤ v.timestep) :
    desiredPos (cInt s.width) (cInt s.height) v.linearVelocity =
      (if |v.linearVelocity.x| > 30
        then ⟨(cInt s.width : ℚ) * (1 / 2), (cInt s.height : ℚ) * (35 / 100)⟩
        else ⟨(cInt s.width : ℚ) * (1 / 2), (cInt s.height : ℚ) * (1 / 2)⟩) ∧
    (min s.planePos.x (desiredPos (cInt s.width) (cInt s.height) v.linearVelocity).x
        ≤ (s.adjustTransform v).planePos.x ∧
      (s.adjustTransform v).planePos.x
        ≤ max s.planePos.x (desiredPos (cInt s.width) (cInt s.height) v.linearVelocity).x) ∧
    (min s.planePos.y (desiredPos (cInt s.width) (cInt s.height) v.linearVelocity).y
        ≤ (s.adjustTransform v).planePos.y ∧
      (s.adjustTransform v).planePos.y
        ≤ max s.planePos.y (desiredPos (cInt s.width) (cInt s.height) v.linearVelocity).y) ∧
    (|s.planePos.x - (desiredPos (cInt s.width) (cInt s.height) v.linearVelocity).x|
        ≤ 300 * v.timestep →
      (s.adjustTransform v).planePos.x
        = (desiredPos (cInt s.width) (cInt s.height) v.linearVelocity).x) ∧
    (|s.planePos.y - (desiredPos (cInt s.width) (cInt s.height) v.linearVelocity).y|
        ≤ 50 * v.timestep →
      (s.adjustTransform v).planePos.y
        = (desiredPos (cInt s.width) (cInt s.height) v.linearVelocity).y) ∧
    (0 < v.timestep →
      (300 * v.timestep
          < |s.planePos.x - (desiredPos (cInt s.width) (cInt s.height) v.linearVelocity).x| →
        |(s.adjustTransform v).planePos.x
            - (desiredPos (cInt s.width) (cInt s.height) v.linearVelocity).x|
          < |s.planePos.x - (desiredPos (cInt s.width) (cInt s.height) v.linearVelocity).x|) ∧
      (50 * v.timestep
          < |s.planePos.y - (desiredPos (cInt s.width) (cInt s.height) v.linearVelocity).y| →
        |(s.adjustTransform v).planePos.y
            - (desiredPos (cInt s.width) (cInt s.height) v.linearVelocity).y|
          < |s.planePos.y - (desiredPos (cInt s.width) (cInt s.height) v.linearVelocity).y|)) := by
  rw [adjustTransform_planePos]
  refine ⟨?_, ?_, ?_, ?_, ?_, ?_⟩
  · unfold desiredPos
    split <;> rfl
  · exact clamp_between (by linarith) _ _
  · exact clamp_between (by linarith) _ _
  · intro h
    simp only [clamp_eq_of_abs_le h]
    ring
  · intro h
    simp only [clamp_eq_of_abs_le h]
    ring
  · intro hpos
    exact ⟨clamp_closer (by linarith) _ _, clamp_closer (by linarith) _ _⟩

/-- Witness of C3 on the sample scene (1000 x 600 pixels, anchor at the origin,
45 m/s) with `dt = 1/8`: the desired anchor is `(500, 210)`, farther than the
caps `37.5` and `6.25`, the anchor moves from `(0, 0)` to `(37.5, 6.25)` and
is strictly closer to the desired anchor in both axes. -/
theorem adjustTransform_anchor_toward_desired_witness :
    (0 : ℚ) ≤ sampleViewEighth.timestep ∧
    desiredPos (cInt sampleScene.width) (cInt sampleScene.height)
      sampleViewEighth.linearVelocity = ⟨500, 210⟩ ∧
    (sampleScene.adjustTransform sampleViewEighth).planePos = ⟨75 / 2, 25 / 4⟩ ∧
    |(sampleScene.adjustTransform sampleViewEighth).planePos.x - 500|
      < |sampleScene.planePos.x - 500| ∧
    |(sampleScene.adjustTransform sampleViewEighth).planePos.y - 210|
      < |sampleScene.planePos.y - 210| := by
  have hdt : (0 : ℚ) ≤ sampleViewEighth.timestep := by norm_num [sampleViewEighth]
  have hdt2 : (0 : ℚ) < sampleViewEighth.timestep := by norm_num [sampleViewEighth]
  have hw : cInt sampleScene.width = 1000 := by
    have := cInt_intCast 1000
    simpa [sampleScene] using this
  have hh : cInt sampleScene.height = 600 := by
    have := cInt_intCast 600
    simpa [sampleScene] using this
  have hd : desiredPos (cInt sampleScene.width) (cInt sampleScene.height)
      sampleViewEighth.linearVelocity = ⟨500, 210⟩ := by
    rw [hw, hh]
    norm_num [desiredPos, sampleViewEighth, sampleView]
  have hval : (sampleScene.adjustTransform sampleViewEighth).planePos = ⟨75 / 2, 25 / 4⟩ := by
    rw [adjustTransform_planePos, hd]
    norm_num [sampleScene, sampleViewEighth]
  obtain ⟨_, _, _, _, _, hprog⟩ :=
    adjustTransform_anchor_toward_desired sampleScene sampleViewEighth hdt
  rw [hd] at hprog
  obtain ⟨hx, hy⟩ := hprog hdt2
  exact ⟨hdt, hd, hval,
    hx (by norm_num [sampleScene, sampleViewEighth]),
    hy (by norm_num [sampleScene, sampleViewEighth])⟩

/-- C4: for every viewport `(w, h)` the pixels-per-meter factor computed by
`adjustTransform` is `max(w, h) / metersVisible`, with `metersVisible` 100 for
`ZOOM1`, 250 for `ZOOM2` and 625 for `ZOOM3`; it is the horizontal scale of the
stored transform and the negated vertical one; `ZOOM1` on a viewport whose
longer side is 1000 pixels gives exactly 10 pixels per meter. -/
theorem adjustTransform_zoomFactor (s : WorldScene) (v : WorldView) :
    metersVisible ZOOM1 = 100 ∧ metersVisible ZOOM2 = 250 ∧ metersVisible ZOOM3 = 625 ∧
    zoomFactor s.zoom (cInt s.width) (cInt s.height) =
      some (((max (cInt s.width) (cInt s.height) : Int) : ℚ) / metersVisible s.zoom) ∧
    (∀ t, (s.adjustTransform v).transform = some t →
      t.m11 = ((max (cInt s.width) (cInt s.height) : Int) : ℚ) / metersVisible s.zoom ∧
      t.m22 = -(((max (cInt s.width) (cInt s.height) : Int) : ℚ) / metersVisible s.zoom)) ∧
    (s.zoom = ZOOM1 → max (cInt s.width) (cInt s.height) = 1000 →
      zoomFactor s.zoom (cInt s.width) (cInt s.height) = some 10) := by
  have hz := zoomFactor_eq s.zoom (cInt s.width) (cInt s.height)
  refine ⟨by simp [metersVisible, ZOOM1], by simp [metersVisible, ZOOM1, ZOOM2, ZOOM3],
    by simp [metersVisible, ZOOM1, ZOOM3], hz, ?_, ?_⟩
  · intro t ht
    by_cases hne : ((max (cInt s.width) (cInt s.height) : Int) : ℚ) / metersVisible s.zoom = 0
    · rw [hne] at hz
      rw [adjustTransform_transform_of_zero s v hz] at ht
      cases ht
    · rw [adjustTransform_transform_of_ne s v hz hne] at ht
      cases ht
      simp [QTransform.translate, QTransform.scale, QTransform.identity]
  · intro h1 h2
    rw [hz, h1, h2]
    norm_num [metersVisible, ZOOM1]

/-- C10 fails as stated: on a viewport of zero width and zero height the zoom
factor is `0 / 100 = 0`, the two divisions `planePos / zoom` divide by zero and
the stored transform is not finite.  The constructor of the scene is such a
call: it runs `adjustTransform` on the still empty scene rectangle. -/
theorem adjustTransform_divides_by_zero :
    zoomFactor ZOOM1 (cInt 0) (cInt 0) = some 0 ∧
    (({ sampleScene with width := 0, height := 0 } : WorldScene).adjustTransform
      sampleView).transform = none ∧
    (construct ZOOM1 sampleView).transform = none := by
  have h0 : cInt 0 = 0 := by
    have := cInt_intCast 0
    simpa using this
  have hz : ∀ z : Int, zoomFactor z (cInt 0) (cInt 0) = some 0 := by
    intro z
    rw [zoomFactor_eq, h0]
    simp
  refine ⟨hz _, ?_, ?_⟩
  · exact adjustTransform_transform_of_zero
      ({ sampleScene with width := 0, height := 0 } : WorldScene) sampleView (hz _)
  · have hc : (construct ZOOM1 sampleView).transform =
        (WorldScene.adjustTransform ⟨false, 0, 0, some QTransform.identity, ⟨0, 0⟩, 0, ZOOM1, 0, []⟩
          sampleView).transform := rfl
    rw [hc]
    exact adjustTransform_transform_of_zero
      ⟨false, 0, 0, some QTransform.identity, ⟨0, 0⟩, 0, ZOOM1, 0, []⟩ sampleView (hz _)

/-- C10, amended: the divisor `metersVisible` is positive for every value of
`_zoom`, so the division computing the zoom factor never divides by zero; the
zoom factor itself is zero exactly when the longer viewport side is zero, and
the stored transform is finite exactly when the longer viewport side is not
zero. -/
theorem adjustTransform_divisors (s : WorldScene) (v : WorldView) :
    0 < metersVisible s.zoom ∧
    (∃ z, zoomFactor s.zoom (cInt s.width) (cInt s.height) = some z ∧
      (z = 0 ↔ max (cInt s.width) (cInt s.height) = 0)) ∧
    ((s.adjustTransform v).transform ≠ none ↔ max (cInt s.width) (cInt s.height) ≠ 0) := by
  have hz := zoomFactor_eq s.zoom (cInt s.width) (cInt s.height)
  have hmv := metersVisible_pos s.zoom
  have hiff : ((max (cInt s.width) (cInt s.height) : Int) : ℚ) / metersVisible s.zoom = 0 ↔
      max (cInt s.width) (cInt s.height) = 0 := by
    rw [div_eq_zero_iff]
    constructor
    · rintro (h | h)
      · exact_mod_cast h
      · exact absurd h hmv.ne.symm
    · intro h
      left
      exact_mod_cast h
  refine ⟨hmv, ⟨_, hz, hiff⟩, ?_⟩
  constructor
  · intro hne h0
    apply hne
    rw [← hiff] at h0
    rw [h0] at hz
    exact adjustTransform_transform_of_zero s v hz
  · intro hne
    have hne2 := mt hiff.mp hne
    rw [adjustTransform_transform_of_ne s v hz hne2]
    simp

/-! ## The simulation clock -/

theorem simulateCalls_call (s : WorldScene) (c : Call) :
    (s.call c).simulateCalls = s.simulateCalls ++ (if isSimulate c then [c] else []) := by
  simp only [simulateCalls, call, List.filter_append, List.filter_cons, List.filter_nil]

theorem simulateCalls_adjustTransform (s : WorldScene) (v : WorldView) :
    (s.adjustTransform v).simulateCalls = s.simulateCalls := rfl

theorem simulateCalls_onTimer (s : WorldScene) (v : WorldView) :
    (s.onTimer v).simulateCalls = s.simulateCalls ++ [Call.simulate (1 / FPS)] := by
  have h : (s.onTimer v).simulateCalls
      = (((s.call (Call.simulate (1 / FPS))).adjustTransform v).call Call.update).simulateCalls :=
    rfl
  rw [h, simulateCalls_call, simulateCalls_adjustTransform, simulateCalls_call]
  simp [isSimulate]

theorem simulateCalls_start (s : WorldScene) : s.start.simulateCalls = s.simulateCalls := rfl

theorem simulateCalls_stop (s : WorldScene) : s.stop.simulateCalls = s.simulateCalls := by
  have h : s.stop.simulateCalls
      = (({ s with timerActive := false } : WorldScene).call Call.update).simulateCalls := rfl
  rw [h, simulateCalls_call]
  simp [isSimulate, simulateCalls]

theorem simulateCalls_step (s : WorldScene) (v : WorldView) :
    (s.step v).simulateCalls
      = s.simulateCalls ++ (if s.timerActive then [] else [Call.simulate (1 / FPS)]) := by
  have hc : ((s.call Call.update).call (Call.savePixmap (s.call Call.update).frames)).simulateCalls
      = s.simulateCalls := by
    rw [simulateCalls_call, simulateCalls_call]
    simp [isSimulate]
  have ht : ((s.call Call.update).call (Call.savePixmap (s.call Call.update).frames)).timerActive
      = s.timerActive := rfl
  simp only [step, ht]
  cases s.timerActive
  · simp only [Bool.not_false, if_true]
    rw [simulateCalls_onTimer, hc]
    simp
  · simp only [Bool.not_true]
    simpa using hc

theorem simulateCalls_render (s : WorldScene) (v : WorldView) (now : ℚ) :
    (s.render v now).simulateCalls = s.simulateCalls := by
  simp [render, simulateCalls, call, isSimulate, List.filter_append]

theorem simulateCalls_resizeEvent (s : WorldScene) (w h : Int) (v : WorldView) :
    (s.resizeEvent w h v).simulateCalls = s.simulateCalls := rfl

theorem simulateCalls_mouseMoveEvent (s : WorldScene) (v : WorldView) (e : MouseEvent) :
    (s.mouseMoveEvent v e).simulateCalls = s.simulateCalls := by
  simp only [mouseMoveEvent]
  split_ifs <;> simp [simulateCalls, call, isSimulate, List.filter_append]

theorem simulateCalls_mousePressEvent (s : WorldScene) (e : MouseEvent) :
    (s.mousePressEvent e).simulateCalls = s.simulateCalls := by
  simp only [mousePressEvent]
  split_ifs
  · simp [simulateCalls, call, isSimulate, List.filter_append]
  · split <;> simp [simulateCalls, call, isSimulate, List.filter_append]

theorem simulateCalls_mouseReleaseEvent (s : WorldScene) (e : MouseEvent) :
    (s.mouseReleaseEvent e).simulateCalls = s.simulateCalls := by
  simp only [mouseReleaseEvent]
  split_ifs
  · simp [simulateCalls, call, isSimulate, List.filter_append]
  · split <;> simp [simulateCalls, call, isSimulate, List.filter_append]

theorem simulateCalls_wheelEvent (s : WorldScene) (v : WorldView) (e : WheelEvent) :
    (s.wheelEvent v e).simulateCalls = s.simulateCalls := by
  simp only [wheelEvent]
  split_ifs <;> simp [simulateCalls, call, isSimulate, List.filter_append]

theorem simulateCalls_keyPressEvent (s : WorldScene) (v : WorldView) (e : KeyEvent) :
    (s.keyPressEvent v e).simulateCalls = s.simulateCalls := by
  rcases e with ⟨acc, rep, key⟩
  cases acc <;> cases rep <;> cases key <;> cases hta : s.timerActive <;>
    simp [keyPressEvent, simulateCalls, call, isSimulate, List.filter_append, stop, start,
      isRunning, hta]

theorem simulateCalls_keyReleaseEvent (s : WorldScene) (e : KeyEvent) :
    (s.keyReleaseEvent e).simulateCalls = s.simulateCalls := by
  simp only [keyReleaseEvent]
  split_ifs
  · rfl
  · split <;> simp [simulateCalls, call, isSimulate, List.filter_append]

theorem simulateCount_eq_length (s : WorldScene) :
    s.simulateCount = s.simulateCalls.length := by
  simp only [simulateCount, simulateCalls, List.countP_eq_length_filter]

/-- The calls of `World::simulate` an operation adds: one call with the
argument `1/FPS` for a time-out of the running timer and for `step` on a
stopped scene, none otherwise. -/
theorem simulateCalls_apply (s : WorldScene) (op : Op) :
    (s.apply op).simulateCalls =
      s.simulateCalls ++
        (if (op.isTick && s.timerActive) || (op.isStep && ! s.timerActive)
          then [Call.simulate (1 / FPS)] else []) := by
  cases op with
  | start => simp [apply, Op.isTick, Op.isStep, simulateCalls_start]
  | stop => simp [apply, Op.isTick, Op.isStep, simulateCalls_stop]
  | step v =>
    simp only [apply, Op.isTick, Op.isStep, simulateCalls_step]
    cases s.timerActive <;> simp
  | tick v =>
    simp only [apply, Op.isTick, Op.isStep]
    cases h : s.timerActive
    · simp
    · simp [simulateCalls_onTimer]
  | render v now => simp [apply, Op.isTick, Op.isStep, simulateCalls_render]
  | resize w h v => simp [apply, Op.isTick, Op.isStep, simulateCalls_resizeEvent]
  | mouseMove v e => simp [apply, Op.isTick, Op.isStep, simulateCalls_mouseMoveEvent]
  | mousePress e => simp [apply, Op.isTick, Op.isStep, simulateCalls_mousePressEvent]
  | mouseRelease e => simp [apply, Op.isTick, Op.isStep, simulateCalls_mouseReleaseEvent]
  | wheel v e => simp [apply, Op.isTick, Op.isStep, simulateCalls_wheelEvent]
  | keyPress v e => simp [apply, Op.isTick, Op.isStep, simulateCalls_keyPressEvent]
  | keyRelease e => simp [apply, Op.isTick, Op.isStep, simulateCalls_keyReleaseEvent]

/-- C5 fails as stated: `step` called on a stopped scene runs `onTimer`, which
calls `World::simulate( 1/FPS )` once.  The world's own timestep (1/60 here)
plays no part in the argument. -/
theorem step_while_stopped_simulates :
    sampleScene.timerActive = false ∧
    sampleViewFine.timestep = 1 / 60 ∧
    (sampleScene.apply (Op.step sampleViewFine)).calls =
      [Call.update, Call.savePixmap 0, Call.simulate (1 / 10), Call.update] ∧
    (sampleScene.apply (Op.step sampleViewFine)).simulateCount
      = sampleScene.simulateCount + 1 := by
  refine ⟨rfl, rfl, ?_, ?_⟩
  · simp [apply, step, onTimer, call, adjustTransform, sampleScene, FPS]
  · rw [simulateCount_eq_length, simulateCount_eq_length, simulateCalls_apply]
    simp [Op.isStep, Op.isTick, sampleScene]

/-- C5, amended: an operation invokes `World::simulate` exactly once, with the
argument `1/FPS = 1/10`, when it is a time-out of the running timer or a call
of `step` on a stopped scene, and not at all otherwise.  In particular, while
the timer is not active no operation other than `step` (`start`, `stop`, key
and mouse handling, rendering, resizing) advances the simulation. -/
theorem simulate_only_from_tick_or_step (s : WorldScene) (op : Op) :
    (s.apply op).simulateCalls =
      s.simulateCalls ++
        (if (op.isTick && s.timerActive) || (op.isStep && ! s.timerActive)
          then [Call.simulate (1 / 10)] else []) ∧
    (s.apply op).simulateCount =
      s.simulateCount +
        (if (op.isTick && s.timerActive) || (op.isStep && ! s.timerActive) then 1 else 0) := by
  have h := simulateCalls_apply s op
  have hfps : (1 : ℚ) / FPS = 1 / 10 := by norm_num [FPS]
  rw [hfps] at h
  refine ⟨h, ?_⟩
  rw [simulateCount_eq_length, simulateCount_eq_length, h]
  split <;> simp

/-! ## Input handlers -/

/-- C6 fails as stated: `mousePressEvent` on a left press that the base handler
has not accepted calls the base handler and `setFiring( true )` and nothing
else, so it never claims the focus; `keyReleaseEvent` on a release of `B`
calls `applyWheelBrake( false )` without passing the event to the base handler
and without claiming the focus. -/
theorem handlers_not_uniform :
    (sampleScene.mousePressEvent sampleLeftPress).calls =
      [Call.base Handler.mousePress, Call.setFiring true] ∧
    Call.setFocus ∉ (sampleScene.mousePressEvent sampleLeftPress).calls ∧
    (sampleScene.keyReleaseEvent sampleBrakeRelease).calls = [Call.applyWheelBrake false] := by
  simp [mousePressEvent, keyReleaseEvent, call, sampleScene, sampleLeftPress, sampleBrakeRelease]

/-- C6, amended: `mouseMoveEvent`, `mousePressEvent`, `mouseReleaseEvent`,
`wheelEvent` and `keyPressEvent` first pass the event to the handler of the
base class, and when the base handler has accepted the event they do nothing
else (no call on the plane, no change of the scene state).  Of these five only
`mouseMoveEvent` claims the input focus: it does so as its last call whenever
the event was not accepted, and the other four never call `setFocus`. -/
theorem handlers_defer_to_base (s : WorldScene) (v : WorldView) (m : MouseEvent)
    (wh : WheelEvent) (k : KeyEvent) :
    ((∃ rest, (s.mouseMoveEvent v m).calls = s.calls ++ Call.base Handler.mouseMove :: rest) ∧
      (∃ rest, (s.mousePressEvent m).calls = s.calls ++ Call.base Handler.mousePress :: rest ∧
        Call.setFocus ∉ rest) ∧
      (∃ rest, (s.mouseReleaseEvent m).calls = s.calls ++ Call.base Handler.mouseRelease :: rest ∧
        Call.setFocus ∉ rest) ∧
      (∃ rest, (s.wheelEvent v wh).calls = s.calls ++ Call.base Handler.wheel :: rest ∧
        Call.setFocus ∉ rest) ∧
      (∃ rest, (s.keyPressEvent v k).calls = s.calls ++ Call.base Handler.keyPress :: rest ∧
        Call.setFocus ∉ rest)) ∧
    (m.acceptedByBase = true →
      s.mouseMoveEvent v m = s.call (Call.base Handler.mouseMove) ∧
      s.mousePressEvent m = s.call (Call.base Handler.mousePress) ∧
      s.mouseReleaseEvent m = s.call (Call.base Handler.mouseRelease)) ∧
    (wh.acceptedByBase = true → s.wheelEvent v wh = s.call (Call.base Handler.wheel)) ∧
    (k.acceptedByBase = true → s.keyPressEvent v k = s.call (Call.base Handler.keyPress)) ∧
    (m.acceptedByBase = false →
      ∃ mid, (s.mouseMoveEvent v m).calls =
          s.calls ++ Call.base Handler.mouseMove :: (mid ++ [Call.setFocus]) ∧
        Call.setFocus ∉ mid) := by
  refine ⟨⟨?_, ?_, ?_, ?_, ?_⟩, ?_, ?_, ?_, ?_⟩
  · rcases m with ⟨acc, pos, btn⟩
    cases acc <;> cases hap : v.autopilot <;> simp [mouseMoveEvent, call, hap]
  · rcases m with ⟨acc, pos, btn⟩
    cases acc <;> cases btn <;> simp [mousePressEvent, call]
  · rcases m with ⟨acc, pos, btn⟩
    cases acc <;> cases btn <;> simp [mouseReleaseEvent, call]
  · rcases wh with ⟨acc, delta⟩
    cases acc <;> simp [wheelEvent, call]
  · rcases k with ⟨acc, rep, key⟩
    cases acc <;> cases rep <;> cases key <;> cases hta : s.timerActive <;>
      simp [keyPressEvent, call, stop, start, isRunning, hta]
  · intro h
    simp [mouseMoveEvent, mousePressEvent, mouseReleaseEvent, h]
  · intro h
    simp [wheelEvent, h]
  · intro h
    simp [keyPressEvent, h]
  · intro h
    cases hap : v.autopilot
    · refine ⟨[Call.setElevator ((fdiv (-m.scenePos.y) s.height).map fun q => 2 * (q + 1 / 2))],
        ?_, by simp⟩
      simp [mouseMoveEvent, call, h, hap]
    · refine ⟨[], ?_, by simp⟩
      simp [mouseMoveEvent, call, h, hap]

/-! ## The message log -/

/-- What the acquiring loop of `render` computes when started with the counter
`n` and the list `acc`: it prepends the texts of the messages with indices
`k, ..., n - 1` for some `k`, all of them young enough, never growing the list
beyond the cap, and it stops only at the start of the list, at the cap or at a
message that is too old. -/
theorem messageLoop_spec (all : List Message) (minTime : ℚ) :
    ∀ (n : Nat) (acc : List String), n ≤ all.length →
      ∃ k, k ≤ n ∧
        messageLoop all minTime n acc
          = ((all.drop k).take (n - k)).map Message.text ++ acc ∧
        (∀ m ∈ (all.drop k).take (n - k), m.time > minTime) ∧
        (acc.length ≤ MAX_DISPLAYED_MESSAGES →
          (n - k) + acc.length ≤ MAX_DISPLAYED_MESSAGES) ∧
        (k = 0 ∨ MAX_DISPLAYED_MESSAGES ≤ (n - k) + acc.length ∨
          ∃ m, all[k - 1]? = some m ∧ ¬ m.time > minTime) := by
  intro n
  induction n with
  | zero =>
    intro acc _
    exact ⟨0, le_refl _, by simp [messageLoop], by simp, by simp, Or.inl rfl⟩
  | succ n ih =>
    intro acc hn
    have hlt : n < all.length := hn
    have hget : all[n]? = some all[n] := List.getElem?_eq_getElem hlt
    by_cases hcap : acc.length < MAX_DISPLAYED_MESSAGES
    · by_cases hage : all[n].time > minTime
      · obtain ⟨k, hk, heq, hall, hlen, hmax⟩ := ih (all[n].text :: acc) (Nat.le_of_lt hlt)
        have hsub : n + 1 - k = (n - k) + 1 := by omega
        have hidx : (all.drop k)[n - k]? = some all[n] := by
          rw [List.getElem?_drop, ← hget]
          congr 1
          omega
        have htake : (all.drop k).take (n + 1 - k) = (all.drop k).take (n - k) ++ [all[n]] := by
          rw [hsub, List.take_succ, hidx]
          rfl
        refine ⟨k, Nat.le_succ_of_le hk, ?_, ?_, ?_, ?_⟩
        · simp only [messageLoop, hcap, if_true, hget, hage]
          rw [heq, htake]
          simp
        · intro m hm
          rw [htake, List.mem_append] at hm
          rcases hm with hm | hm
          · exact hall m hm
          · rw [List.mem_singleton] at hm
            rw [hm]
            exact hage
        · intro _
          have := hlen (by simp only [List.length_cons]; omega)
          simp only [List.length_cons] at this
          omega
        · rcases hmax with h | h | h
          · exact Or.inl h
          · right; left
            simp only [List.length_cons] at h
            omega
          · exact Or.inr (Or.inr h)
      · refine ⟨n + 1, le_refl _, ?_, ?_, ?_, ?_⟩
        · simp [messageLoop, hcap, hget, hage]
        · simp
        · intro h
          simpa using h
        · right; right
          exact ⟨all[n], by simp [hget], hage⟩
    · refine ⟨n + 1, le_refl _, ?_, ?_, ?_, ?_⟩
      · simp [messageLoop, hcap]
      · simp
      · intro h
        simpa using h
      · right; left
        simp only [Nat.sub_self, Nat.zero_add]
        omega

/-- C7: for every message list of the plane and every world time, the message
log that `render` draws last has at most 5 messages, every one of them has
`time > world time - 5.0`, and they are a contiguous suffix of the plane's list
in the original order (newest last).  The suffix is moreover the longest such
one: it has 5 messages, or it is the whole list, or the message just before it
is too old. -/
theorem render_message_log (s : WorldScene) (v : WorldView) (now : ℚ) :
    ∃ shown : List Message,
      shown <:+ v.messages ∧
      displayedMessages v.messages v.time = shown.map Message.text ∧
      (s.render v now).calls.getLast? = some (Call.drawMessages (shown.map Message.text)) ∧
      shown.length ≤ 5 ∧
      (∀ m ∈ shown, m.time > v.time - 5) ∧
      (shown.length = 5 ∨ shown = v.messages ∨
        ∃ older m, v.messages = older ++ m :: shown ∧ ¬ m.time > v.time - 5) := by
  obtain ⟨k, hk, heq, hall, hlen, hmax⟩ :=
    messageLoop_spec v.messages (v.time - MAX_MESSAGE_AGE) v.messages.length [] (le_refl _)
  have htake : (v.messages.drop k).take (v.messages.length - k) = v.messages.drop k :=
    List.take_of_length_le (by simp)
  rw [htake] at heq hall
  have hlen2 : (v.messages.drop k).length ≤ 5 := by
    have := hlen (by simp [MAX_DISPLAYED_MESSAGES])
    simpa [MAX_DISPLAYED_MESSAGES] using this
  have hd : displayedMessages v.messages v.time = (v.messages.drop k).map Message.text := by
    simp only [displayedMessages]
    rw [heq]
    simp
  refine ⟨v.messages.drop k, List.drop_suffix _ _, hd, ?_, hlen2, ?_, ?_⟩
  · simp only [render, call]
    rw [List.getLast?_concat, hd]
  · intro m hm
    have := hall m hm
    simpa [MAX_MESSAGE_AGE] using this
  · by_cases hk0 : k = 0
    · right; left
      rw [hk0]
      rfl
    · rcases hmax with h | h | ⟨m, hm, hold⟩
      · exact absurd h hk0
      · left
        have h2 : 5 ≤ (v.messages.drop k).length := by
          simpa [MAX_DISPLAYED_MESSAGES] using h
        omega
      · right; right
        obtain ⟨hlt, hmeq⟩ := List.getElem?_eq_some.mp hm
        refine ⟨v.messages.take (k - 1), m, ?_, by simpa [MAX_MESSAGE_AGE] using hold⟩
        have hcons : v.messages.drop (k - 1) = m :: v.messages.drop k := by
          rw [List.drop_eq_getElem_cons hlt, hmeq]
          congr 2
          omega
        rw [← hcons, List.take_append_drop]

/-! ## Mouse steering -/

/-- C8 fails as stated: a mouse move that the base handler has accepted (the
pointer is over an embedded widget) returns right after the base call, so the
elevator is not set although the autopilot is disengaged. -/
theorem mouseMove_accepted_sets_no_elevator :
    sampleView.autopilot = false ∧
    sampleAcceptedMove.acceptedByBase = true ∧
    (sampleScene.mouseMoveEvent sampleView sampleAcceptedMove).calls =
      [Call.base Handler.mouseMove] := by
  simp [mouseMoveEvent, call, sampleScene, sampleView, sampleAcceptedMove]

/-- C8, amended: in `mouseMoveEvent` on a scene of positive height, when the
event was not accepted by the base handler and the autopilot is disengaged,
the calls made are the base handler, `setElevator( e )` and `setFocus()` with
`e = 2*(0.5 - y/height)` for the vertical scene position `y` of the pointer;
this value is 0 at the centre, +1 at the top edge, -1 at the bottom edge and
lies in `[-1, 1]` for every `y` in `[0, height]`.  When the autopilot is
engaged no call of `setElevator` is made, and when the base handler has
accepted the event the base call is all that happens, whatever the autopilot:
the elevator is left unchanged in both cases. -/
theorem mouseMove_elevator (s : WorldScene) (v : WorldView) (e : MouseEvent)
    (hh : 0 < s.height) :
    (e.acceptedByBase = false → v.autopilot = false →
      ∃ el : ℚ,
        (s.mouseMoveEvent v e).calls =
          s.calls ++ [Call.base Handler.mouseMove, Call.setElevator (some el), Call.setFocus] ∧
        el = 2 * (1 / 2 - e.scenePos.y / s.height) ∧
        (e.scenePos.y = s.height / 2 → el = 0) ∧
        (e.scenePos.y = 0 → el = 1) ∧
        (e.scenePos.y = s.height → el = -1) ∧
        (0 ≤ e.scenePos.y → e.scenePos.y ≤ s.height → -1 ≤ el ∧ el ≤ 1)) ∧
    (v.autopilot = true →
      ∃ rest, (s.mouseMoveEvent v e).calls = s.calls ++ rest ∧
        ∀ x, Call.setElevator x ∉ rest) ∧
    (e.acceptedByBase = true →
      s.mouseMoveEvent v e = s.call (Call.base Handler.mouseMove) ∧
      (s.mouseMoveEvent v e).calls = s.calls ++ [Call.base Handler.mouseMove]) := by
  have hne : s.height ≠ 0 := hh.ne.symm
  refine ⟨?_, ?_, ?_⟩
  rotate_left 2
  · intro hacc
    simp [mouseMoveEvent, call, hacc]
  · intro hacc hap
    refine ⟨2 * (1 / 2 - e.scenePos.y / s.height), ?_, rfl, ?_, ?_, ?_, ?_⟩
    · have hdiv : fdiv (-e.scenePos.y) s.height = some (-e.scenePos.y / s.height) :=
        fdiv_of_ne _ hne
      have hcalc : 2 * (-e.scenePos.y / s.height + 1 / 2)
          = 2 * (1 / 2 - e.scenePos.y / s.height) := by ring
      simp only [mouseMoveEvent, call, hacc, hap, hdiv, Option.map_some', hcalc]
      simp
    · intro hy
      rw [hy]
      field_simp
    · intro hy
      rw [hy]
      norm_num
    · intro hy
      rw [hy, div_self hne]
      norm_num
    · intro h0 h1
      have hq0 : 0 ≤ e.scenePos.y / s.height := div_nonneg h0 hh.le
      have hq1 : e.scenePos.y / s.height ≤ 1 := (div_le_one hh).mpr h1
      constructor <;> linarith
  · intro hap
    cases hacc : e.acceptedByBase
    · exact ⟨[Call.base Handler.mouseMove, Call.setFocus],
        by simp [mouseMoveEvent, call, hacc, hap], by simp⟩
    · exact ⟨[Call.base Handler.mouseMove],
        by simp [mouseMoveEvent, call, hacc], by simp⟩

/-- Witness of C8 on the sample scene (height 600): a pointer at `y = 450` with
the autopilot disengaged sets the elevator to `-1/2`. -/
theorem mouseMove_elevator_witness :
    (0 : ℚ) < sampleScene.height ∧
    (sampleScene.mouseMoveEvent sampleView sampleMove).calls =
      [Call.base Handler.mouseMove, Call.setElevator (some (-1 / 2)), Call.setFocus] := by
  have hh : (0 : ℚ) < sampleScene.height := by norm_num [sampleScene]
  obtain ⟨el, hcalls, hel, _⟩ :=
    (mouseMove_elevator sampleScene sampleView sampleMove hh).1 rfl rfl
  refine ⟨hh, ?_⟩
  rw [hcalls, hel]
  norm_num [sampleScene, sampleMove]

/-! ## Zoom levels under key presses -/

theorem keyPressEvent_isZoomLevel (s : WorldScene) (v : WorldView) (e : KeyEvent)
    (hz : isZoomLevel s.zoom) : isZoomLevel (s.keyPressEvent v e).zoom := by
  rcases e with ⟨acc, rep, key⟩
  unfold isZoomLevel at hz
  rcases hz with h | h | h <;>
    cases acc <;> cases rep <;> cases key <;> cases hta : s.timerActive <;>
      simp [keyPressEvent, call, stop, start, isRunning, hta, h, isZoomLevel, ZOOM1, ZOOM2, ZOOM3]

theorem keyPresses_isZoomLevel (es : List (WorldView × KeyEvent)) :
    ∀ s : WorldScene, isZoomLevel s.zoom → isZoomLevel (s.keyPresses es).zoom := by
  induction es with
  | nil =>
    intro s hz
    exact hz
  | cons p es ih =>
    intro s hz
    exact ih (s.keyPressEvent p.1 p.2) (keyPressEvent_isZoomLevel s p.1 p.2 hz)

/-- C9 fails as stated: a press of `PageUp` that is an auto-repeat is dropped
before the `switch`, so it leaves the zoom level at `ZOOM1` instead of moving
it up to `ZOOM2`. -/
theorem repeated_pageUp_keeps_zoom :
    sampleScene.zoom = ZOOM1 ∧
    sampleRepeatedPageUp.key = Key.Key_PageUp ∧
    (sampleScene.keyPressEvent sampleView sampleRepeatedPageUp).zoom = ZOOM1 ∧
    (sampleScene.keyPressEvent sampleView sampleRepeatedPageUp).zoom ≠ ZOOM2 := by
  simp [keyPressEvent, call, sampleScene, sampleRepeatedPageUp, ZOOM1, ZOOM2]

/-- C9, amended: starting from one of the three levels, the zoom level stays
one of `ZOOM1`, `ZOOM2`, `ZOOM3` under any sequence of key presses.  A press of
`PageUp` that is not an auto-repeat and was not accepted by the base handler
moves one level up and saturates at `ZOOM3`; such a press of `PageDown` moves
one level down and saturates at `ZOOM1`; a press of any other key, an
auto-repeat and a press accepted by the base handler leave the zoom level
unchanged. -/
theorem zoom_stays_level (s : WorldScene) (hz : isZoomLevel s.zoom) :
    (∀ es, isZoomLevel (s.keyPresses es).zoom) ∧
    (∀ v e, e.acceptedByBase = false → e.isAutoRepeat = false → e.key = Key.Key_PageUp →
      (s.zoom = ZOOM1 → (s.keyPressEvent v e).zoom = ZOOM2) ∧
      (s.zoom = ZOOM2 → (s.keyPressEvent v e).zoom = ZOOM3) ∧
      (s.zoom = ZOOM3 → (s.keyPressEvent v e).zoom = ZOOM3)) ∧
    (∀ v e, e.acceptedByBase = false → e.isAutoRepeat = false → e.key = Key.Key_PageDown →
      (s.zoom = ZOOM1 → (s.keyPressEvent v e).zoom = ZOOM1) ∧
      (s.zoom = ZOOM2 → (s.keyPressEvent v e).zoom = ZOOM1) ∧
      (s.zoom = ZOOM3 → (s.keyPressEvent v e).zoom = ZOOM2)) ∧
    (∀ v e, (e.acceptedByBase = true ∨ e.isAutoRepeat = true ∨
        (e.key ≠ Key.Key_PageUp ∧ e.key ≠ Key.Key_PageDown)) →
      (s.keyPressEvent v e).zoom = s.zoom) := by
  refine ⟨fun es => keyPresses_isZoomLevel es s hz, ?_, ?_, ?_⟩
  · intro v e hacc hrep hkey
    refine ⟨?_, ?_, ?_⟩ <;> intro h <;>
      simp [keyPressEvent, call, hacc, hrep, hkey, h, ZOOM1, ZOOM2, ZOOM3]
  · intro v e hacc hrep hkey
    refine ⟨?_, ?_, ?_⟩ <;> intro h <;>
      simp [keyPressEvent, call, hacc, hrep, hkey, h, ZOOM1, ZOOM2, ZOOM3]
  · intro v e h
    rcases e with ⟨acc, rep, key⟩
    cases acc <;> cases rep <;> cases key <;> cases hta : s.timerActive <;>
      simp_all [keyPressEvent, call, stop, start, isRunning]

/-- Witness of C9 on the sample scene: a first press of `PageUp` at `ZOOM1`
moves the zoom level to `ZOOM2`. -/
theorem zoom_stays_level_witness :
    isZoomLevel sampleScene.zoom ∧
    (sampleScene.keyPressEvent sampleView samplePageUp).zoom = ZOOM2 :=
  ⟨Or.inl rfl,
    ((zoom_stays_level sampleScene (Or.inl rfl)).2.1 sampleView samplePageUp rfl rfl rfl).1 rfl⟩

end WorldScene

/-! ## Classification flags -/

namespace World

/-- C11 on the code: every flag of `World::ObjectType` is a non-zero single-bit
value, and two different enumerators have different values except for the
pair `ObjectRenderedMap`, `ObjectPlane`, which are both `0x80`.  So a mask
built from `ObjectPlane` alone has `ObjectRenderedMap` set, it is the same
mask as the one built from `ObjectRenderedMap` alone, and it decodes into both
flags. -/
theorem objectType_flags_collide :
    (∀ f : ObjectType, f.value ≠ 0 ∧ f.value &&& (f.value - 1) = 0) ∧
    (∀ f g : ObjectType, f ≠ g → f.value = g.value →
      (f = ObjectType.ObjectRenderedMap ∧ g = ObjectType.ObjectPlane) ∨
      (f = ObjectType.ObjectPlane ∧ g = ObjectType.ObjectRenderedMap)) ∧
    ObjectType.ObjectRenderedMap ≠ ObjectType.ObjectPlane ∧
    ObjectType.ObjectRenderedMap.value = 0x80 ∧
    ObjectType.ObjectPlane.value = 0x80 ∧
    hasFlag (classMask [ObjectType.ObjectPlane]) ObjectType.ObjectPlane = true ∧
    hasFlag (classMask [ObjectType.ObjectPlane]) ObjectType.ObjectRenderedMap = true ∧
    classMask [ObjectType.ObjectPlane] = classMask [ObjectType.ObjectRenderedMap] ∧
    decode (classMask [ObjectType.ObjectPlane]) =
      [ObjectType.ObjectRenderedMap, ObjectType.ObjectPlane] := by
  refine ⟨?_, ?_, by decide, rfl, rfl, by decide, by decide, by decide, by decide⟩
  · intro f
    cases f <;> decide
  · intro f g
    cases f <;> cases g <;> decide

end World

end Flyer
